import Mathlib

/-!
# clickhouse-backup: backup catalog listing and S3 folder upload

A shallow embedding of `pkg/backup/print.go` (catalog scan, remote listing and
the `latest` / `penult` / `all` selection) and of `s3.go` (the folder iterator
that feeds the S3 batch uploader), followed by the properties proved about them.

Conventions of the embedding:
* a Go `error` is an `Option String` (`none` is `nil`), the text being the message;
* `time.Time` is an `Int` (an instant; `Before` is `<`);
* byte counts are `uint64`: naturals whose sum wraps at `2 ^ 64`;
* effects (standard output, the tab writer, the log, the listings issued to the
  remote destination, the objects handed to the uploader) are returned as data.
-/

namespace ClickhouseBackup

/-! ## Data model -/

/-- Modelled from the spec: the declaration of `metadata.BackupMetadata` (package
`pkg/metadata`), reduced to the fields `print.go` reads: the name, the creation
instant, the three byte counts, the data format, the required backup and the
broken reason. -/
structure BackupMetadata where
  BackupName : String
  CreationDate : Int
  DataSize : Nat
  MetadataSize : Nat
  CompressedSize : Nat
  DataFormat : String
  RequiredBackup : String
  Broken : String
  deriving DecidableEq, Repr

/-- The zero value of `metadata.BackupMetadata`. -/
def BackupMetadata.zero : BackupMetadata :=
  { BackupName := "", CreationDate := 0, DataSize := 0, MetadataSize := 0,
    CompressedSize := 0, DataFormat := "", RequiredBackup := "", Broken := "" }

/-- Modelled from the spec: the declaration of `BackupLocal` (package `pkg/backup`):
the embedded metadata and the `Legacy` flag. -/
structure BackupLocal where
  BackupMetadata : BackupMetadata
  Legacy : Bool
  deriving DecidableEq, Repr

/-- Modelled from the spec: the declaration of `storage.Backup` (package
`pkg/storage`): the embedded metadata, the `Legacy` flag and the upload instant. -/
structure Backup where
  BackupMetadata : BackupMetadata
  Legacy : Bool
  UploadDate : Int
  deriving DecidableEq, Repr

/-- Go `+` on `uint64`. -/
def addU64 (a b : Nat) : Nat := (a + b) % 2 ^ 64

/-! ## Printing a catalog (`printBackupsLocal`, `printBackupsRemote`) -/

/-- The collaborators of the two printing functions: `utils.FormatBytes`, the
`time.Time.Format("02/01/2006 15:04:05")` rendering, and the answer of the writer
`w` to a `Fprintf` of a row (`none` when the write succeeds). -/
structure PrintEnv where
  FormatBytes : Nat → String
  FormatTime : Int → String
  Fprintf : String → Option String

/-- What a printing call did: the returned error, the lines sent to standard output
by `fmt.Println`, the rows passed to `fmt.Fprintf(w, ...)` and the warnings logged. -/
structure PrintResult where
  err : Option String
  stdout : List String
  written : List String
  warnings : List String
  deriving DecidableEq, Repr

/-- The six arguments of the row format `"%s\t%s\t%s\t%s\t%s\t%s\n"`. -/
structure Row where
  name : String
  size : String
  date : String
  location : String
  required : String
  description : String
  deriving DecidableEq, Repr

/-- The text `fmt.Fprintf(w, "%s\t%s\t%s\t%s\t%s\t%s\n", ...)` writes for a row. -/
def Row.format (r : Row) : String :=
  r.name ++ "\t" ++ r.size ++ "\t" ++ r.date ++ "\t" ++ r.location ++ "\t" ++
    r.required ++ "\t" ++ r.description ++ "\n"

/-- Body of the `for` loop of `printBackupsRemote` (print.go lines 38-54): the row of
one remote backup. -/
def remoteRow (env : PrintEnv) (backup : Backup) : Row :=
  let size := env.FormatBytes (addU64 backup.BackupMetadata.DataSize backup.BackupMetadata.MetadataSize)
  let size := if backup.BackupMetadata.CompressedSize > 0 then
      env.FormatBytes (addU64 backup.BackupMetadata.CompressedSize backup.BackupMetadata.MetadataSize)
    else size
  let description := backup.BackupMetadata.DataFormat
  let uploadDate := env.FormatTime backup.UploadDate
  let description := if backup.Legacy then "old-format" else description
  let required := ""
  let required := if backup.BackupMetadata.RequiredBackup ≠ "" then
      "+" ++ backup.BackupMetadata.RequiredBackup else required
  let description := if backup.BackupMetadata.Broken ≠ "" then backup.BackupMetadata.Broken else description
  let size := if backup.BackupMetadata.Broken ≠ "" then "???" else size
  { name := backup.BackupMetadata.BackupName, size := size, date := uploadDate,
    location := "remote", required := required, description := description }

/-- Body of the `for` loop of `printBackupsLocal` (print.go lines 82-98): the row of
one local backup. -/
def localRow (env : PrintEnv) (backup : BackupLocal) : Row :=
  let size := env.FormatBytes (addU64 backup.BackupMetadata.DataSize backup.BackupMetadata.MetadataSize)
  let size := if backup.BackupMetadata.CompressedSize > 0 then
      env.FormatBytes (addU64 backup.BackupMetadata.CompressedSize backup.BackupMetadata.MetadataSize)
    else size
  let description := backup.BackupMetadata.DataFormat
  let creationDate := env.FormatTime backup.BackupMetadata.CreationDate
  let size := if backup.Legacy then "???" else size
  let required := ""
  let required := if backup.BackupMetadata.RequiredBackup ≠ "" then
      "+" ++ backup.BackupMetadata.RequiredBackup else required
  let description := if backup.BackupMetadata.Broken ≠ "" then backup.BackupMetadata.Broken else description
  let size := if backup.BackupMetadata.Broken ≠ "" then "???" else size
  { name := backup.BackupMetadata.BackupName, size := size, date := creationDate,
    location := "local", required := required, description := description }

/-- The warnings of a listing: one per row whose `Fprintf` reported an error. -/
def writeWarnings (env : PrintEnv) (what : String) (rows : List String) : List String :=
  rows.filterMap fun row =>
    match env.Fprintf row with
    | some e => some (what ++ e)
    | none => none

/-- The error of the `default:` case, `fmt.Errorf("'%s' undefined", format)`. -/
def undefinedErr (format : String) : String := "'" ++ format ++ "' undefined"

/-- `printBackupsRemote` (print.go lines 21-63). -/
def printBackupsRemote (env : PrintEnv) (backupList : List Backup) (format : String) :
    PrintResult :=
  if format = "latest" ∨ format = "last" ∨ format = "l" then
    if h : backupList.length < 1 then
      { err := some "no backups found", stdout := [], written := [], warnings := [] }
    else
      { err := none,
        stdout := [(backupList.get ⟨backupList.length - 1, by omega⟩).BackupMetadata.BackupName],
        written := [], warnings := [] }
  else if format = "penult" ∨ format = "prev" ∨ format = "previous" ∨ format = "p" then
    if h : backupList.length < 2 then
      { err := some "no penult backup is found", stdout := [], written := [], warnings := [] }
    else
      { err := none,
        stdout := [(backupList.get ⟨backupList.length - 2, by omega⟩).BackupMetadata.BackupName],
        written := [], warnings := [] }
  else if format = "all" ∨ format = "" then
    let rows := backupList.map fun backup => (remoteRow env backup).format
    { err := none, stdout := [], written := rows,
      warnings := writeWarnings env "can't write remote backup list to writer: " rows }
  else
    { err := some (undefinedErr format), stdout := [], written := [], warnings := [] }

/-- `printBackupsLocal` (print.go lines 65-107). -/
def printBackupsLocal (env : PrintEnv) (backupList : List BackupLocal) (format : String) :
    PrintResult :=
  if format = "latest" ∨ format = "last" ∨ format = "l" then
    if h : backupList.length < 1 then
      { err := some "no backups found", stdout := [], written := [], warnings := [] }
    else
      { err := none,
        stdout := [(backupList.get ⟨backupList.length - 1, by omega⟩).BackupMetadata.BackupName],
        written := [], warnings := [] }
  else if format = "penult" ∨ format = "prev" ∨ format = "previous" ∨ format = "p" then
    if h : backupList.length < 2 then
      { err := some "no penult backup is found", stdout := [], written := [], warnings := [] }
    else
      { err := none,
        stdout := [(backupList.get ⟨backupList.length - 2, by omega⟩).BackupMetadata.BackupName],
        written := [], warnings := [] }
  else if format = "all" ∨ format = "" then
    let rows := backupList.map fun backup => (localRow env backup).format
    { err := none, stdout := [], written := rows,
      warnings := writeWarnings env "can't write local backup list to writer: " rows }
  else
    { err := some (undefinedErr format), stdout := [], written := [], warnings := [] }

/-! ## Paths (`path.Join`, `path.Clean`, `strings.TrimPrefix`, `filepath.Ext`)

The standard-library functions `s3.go` and `print.go` call, written over the
characters of a string after their documented behaviour on slash-separated paths. -/

/-- The pieces of a path between its slashes. -/
def splitSlash : List Char → List (List Char)
  | [] => [[]]
  | c :: cs =>
    match splitSlash cs with
    | [] => [[]]
    | seg :: rest => if c = '/' then [] :: seg :: rest else (c :: seg) :: rest

/-- One step of `path.Clean` over the path elements: empty elements and `.` are
dropped, `..` removes the element before it, is dropped at the root of a rooted path
and is kept at the start of a relative one. The kept elements are held most recent
first. -/
def cleanStep (rooted : Bool) (kept : List (List Char)) (seg : List Char) : List (List Char) :=
  if seg = [] ∨ seg = ['.'] then kept
  else if seg = ['.', '.'] then
    match kept with
    | [] => if rooted then [] else [seg]
    | top :: rest => if top = ['.', '.'] then seg :: kept else rest
  else seg :: kept

/-- `path.Clean` on the characters of a path. -/
def cleanChars (p : List Char) : List Char :=
  if p = [] then ['.']
  else
    let rooted := p.head? = some '/'
    let body := List.intercalate ['/'] ((splitSlash p).foldl (cleanStep rooted) []).reverse
    if rooted then '/' :: body else if body = [] then ['.'] else body

/-- `path.Join` (and `filepath.Join` on a slash-separated host): the non-empty
elements joined by slashes and cleaned; the empty string when every element is
empty. -/
def pathJoin (elem : List String) : String :=
  if (elem.map String.length).sum = 0 then ""
  else
    String.mk (cleanChars (elem.foldl (fun buf e =>
      if buf ≠ [] ∨ e ≠ "" then (if buf ≠ [] then buf ++ ['/'] else buf) ++ e.data
      else buf) []))

/-- `strings.TrimPrefix`. -/
def trimPrefix (s pre : String) : String :=
  if pre.data.isPrefixOf s.data then String.mk (s.data.drop pre.data.length) else s

/-- The loop of `filepath.Ext` over the path read from its end: stop at a slash with
no extension, at a dot with the suffix that starts there. -/
def extFromEnd : List Char → List Char → List Char
  | [], _ => []
  | c :: cs, suffix =>
    if c = '/' then [] else if c = '.' then '.' :: suffix else extFromEnd cs (c :: suffix)

/-- `filepath.Ext`: the suffix of the last path element starting at its final dot. -/
def Ext (path : String) : String := String.mk (extFromEnd path.data.reverse [])

/-! ## The local tree and `filepath.Walk` -/

mutual
/-- What `filepath.Walk` finds at a path with `os.Lstat`: a regular file, an entry
that is neither a regular file nor a directory (a symbolic link, which `Lstat` does
not follow, a device, a socket, a named pipe), a directory with its entries in the
order `readDirNames` returns them (sorted by name), a directory whose names cannot be
read, or an entry whose `lstat` fails. -/
inductive FsNode where
  | file : FsNode
  | special : FsNode
  | dir : FsEntries → FsNode
  | dirUnreadable : String → FsNode
  | lstatFails : String → FsNode
/-- The named entries of a directory. -/
inductive FsEntries where
  | nil : FsEntries
  | cons : String → FsNode → FsEntries → FsEntries
end

/-- The part of `os.FileInfo` the walk hands to its callback: `IsDir()` and
`Mode().IsRegular()`. -/
structure FileInfo where
  IsDir : Bool
  IsRegular : Bool
  deriving DecidableEq, Repr

mutual
/-- `filepath.Walk` / `walk` of the standard library, threading the state `σ` the
callback closes over: the callback is called on the node, then on the entries of a
readable directory in order, and the first error it returns ends the walk. (The
`SkipDir` protocol is left out: the callback of `s3.go` never returns it.) -/
def walk {σ : Type} (fn : String → Option FileInfo → Option String → σ → σ × Option String)
    (path : String) : FsNode → σ → σ × Option String
  | .file, s => fn path (some { IsDir := false, IsRegular := true }) none s
  | .special, s => fn path (some { IsDir := false, IsRegular := false }) none s
  | .dirUnreadable e, s => fn path (some { IsDir := true, IsRegular := false }) (some e) s
  | .lstatFails e, s => fn path none (some e) s
  | .dir entries, s =>
    match fn path (some { IsDir := true, IsRegular := false }) none s with
    | (s1, some e) => (s1, some e)
    | (s1, none) => walkEntries fn path entries s1
/-- The loop of `walk` over the names of a directory. -/
def walkEntries {σ : Type}
    (fn : String → Option FileInfo → Option String → σ → σ × Option String)
    (path : String) : FsEntries → σ → σ × Option String
  | .nil, s => (s, none)
  | .cons name node rest, s =>
    match walk fn (pathJoin [path, name]) node s with
    | (s1, some e) => (s1, some e)
    | (s1, none) => walkEntries fn path rest s1
end

/-! ## `s3.go` -/

/-- Modelled from the spec: the declaration of `S3Config` (absent from `s3.go`), with
the fields `s3.go` reads. -/
structure S3Config where
  AccessKey : String
  SecretKey : String
  Region : String
  Endpoint : String
  DisableSSL : Bool
  ForcePathStyle : Bool
  Bucket : String
  ACL : String
  Path : String
  deriving DecidableEq, Repr

/-- `session.Session` of the AWS SDK, as the `aws.Config` values `S3.Connect` builds
it from. -/
structure Session where
  AccessKey : String
  SecretKey : String
  Region : String
  Endpoint : String
  DisableSSL : Bool
  S3ForcePathStyle : Bool
  deriving DecidableEq, Repr

/-- `S3` (s3.go lines 17-21); `session = none` is the nil pointer of an `S3` that was
never connected. -/
structure S3 where
  session : Option Session
  Config : S3Config
  DryRun : Bool
  deriving DecidableEq, Repr

/-- `S3.Connect` (s3.go lines 23-34): `session.NewSession` either fails (`newSession`
gives its error and the session is nil) or yields the session. -/
def S3.Connect (newSession : Session → Option String) (s3 : S3) : S3 × Option String :=
  let cfg : Session :=
    { AccessKey := s3.Config.AccessKey, SecretKey := s3.Config.SecretKey,
      Region := s3.Config.Region, Endpoint := s3.Config.Endpoint,
      DisableSSL := s3.Config.DisableSSL, S3ForcePathStyle := s3.Config.ForcePathStyle }
  match newSession cfg with
  | some err => ({ s3 with session := none }, some err)
  | none => ({ s3 with session := some cfg }, none)

/-- `fileInfo` (s3.go lines 68-71). -/
structure fileInfo where
  key : String
  fullpath : String
  deriving DecidableEq, Repr

/-- `SyncFolderIterator` (s3.go lines 60-66). -/
structure SyncFolderIterator where
  bucket : String
  fileInfos : List fileInfo
  err : Option String
  acl : String
  s3path : String
  deriving DecidableEq, Repr

/-- `s3manager.UploadInput`, the fields `UploadObject` sets. `Body` is `none` for the
nil file a failed `os.Open` leaves. -/
structure UploadInput where
  ACL : String
  Bucket : String
  Key : String
  Body : Option String
  ContentType : String
  deriving DecidableEq, Repr

/-- `s3manager.BatchUploadObject`: the input and the optional `After` hook (here the
error the hook would return). -/
structure BatchUploadObject where
  Object : UploadInput
  After : Option (Option String)
  deriving DecidableEq, Repr

/-- The host `s3.go` runs on: the tree found at a path, `os.Open` (the content of the
file or the error) and `mime.TypeByExtension`. -/
structure Host where
  tree : String → FsNode
  Open : String → Except String String
  TypeByExtension : String → String

/-- The callback `newSyncFolderIterator` passes to `filepath.Walk` (s3.go lines
75-84); the state is the slice `metadata`. The walk passes a file info whenever it
passes no error. -/
def walkFn (localPath : String) (filePath : String) (info : Option FileInfo)
    (err : Option String) (metadata : List fileInfo) : List fileInfo × Option String :=
  match err with
  | some e => (metadata, some e)
  | none =>
    match info with
    | some info =>
      if !info.IsDir then
        let key := trimPrefix filePath localPath
        (metadata ++ [{ key := key, fullpath := filePath }], none)
      else (metadata, none)
    | none => (metadata, none)

/-- `S3.newSyncFolderIterator` (s3.go lines 73-92): the iterator and the error of the
walk. -/
def newSyncFolderIterator (s3 : S3) (host : Host) (localPath dstPath : String) :
    SyncFolderIterator × Option String :=
  let r := walk (walkFn localPath) localPath (host.tree localPath) []
  ({ bucket := s3.Config.Bucket, fileInfos := r.1, err := none, acl := s3.Config.ACL,
     s3path := pathJoin [s3.Config.Path, dstPath] }, r.2)

/-- `SyncFolderIterator.Next` (s3.go lines 96-98). -/
def SyncFolderIterator.Next (iter : SyncFolderIterator) : Bool :=
  iter.fileInfos.length > 0

/-- `SyncFolderIterator.Err` (s3.go lines 101-103). -/
def SyncFolderIterator.Err (iter : SyncFolderIterator) : Option String := iter.err

/-- `SyncFolderIterator.UploadObject` (s3.go lines 107-134): the iterator after the
call and the object built; `none` is the index-out-of-range panic of `fileInfos[0]`
on an empty worklist. -/
def SyncFolderIterator.UploadObject (host : Host) (iter : SyncFolderIterator) :
    Option (SyncFolderIterator × BatchUploadObject) :=
  match iter.fileInfos with
  | [] => none
  | fi :: rest =>
    let iter := { iter with fileInfos := rest }
    let opened := host.Open fi.fullpath
    let body := match opened with
      | .ok f => some f
      | .error _ => none
    let iter := match opened with
      | .ok _ => iter
      | .error e => { iter with err := some e }
    let extension := Ext fi.key
    let mimeType := host.TypeByExtension extension
    let mimeType := if mimeType = "" then "binary/octet-stream" else mimeType
    let key := pathJoin [iter.s3path, fi.key]
    let input : UploadInput :=
      { ACL := iter.acl, Bucket := iter.bucket, Key := key, Body := body,
        ContentType := mimeType }
    some (iter, { Object := input, After := none })

/-- How a run of the upload loop ends: the fuel ran out, the program panicked, or it
returned. -/
inductive Run (α : Type) where
  | outOfFuel : Run α
  | panic : Run α
  | ret : α → Run α
  deriving DecidableEq, Repr

/-- `s3manager.Error` of the AWS SDK: the cause and the bucket and key of the object
that failed. -/
structure S3Error where
  OrigErr : String
  Bucket : String
  Key : String
  deriving DecidableEq, Repr

/-- What `Uploader.UploadWithIterator` leaves behind: the iterator it drained, the
inputs it handed to `UploadWithContext` (in order), the per-object errors it
collected and the error it returns. -/
structure Drain where
  iter : SyncFolderIterator
  handed : List UploadInput
  errs : List S3Error
  err : Option String
  deriving DecidableEq, Repr

/-- The error of `UploadWithContext` on an input whose body is a nil file. -/
def nilBodyError : String :=
  "ReadRequestBody: unable to initialize upload\ncaused by: invalid argument"

/-- `s3manager.Uploader.UploadWithContext` of the AWS SDK, over the object store
`put`: the uploader first probes the size of the body by seeking, which fails with
`invalid argument` on the nil `*os.File` a failed `os.Open` leaves, so such an input
is rejected before anything is sent; any other input goes to the object store. -/
def uploadWithContext (put : UploadInput → Option String) (input : UploadInput) :
    Option String :=
  match input.Body with
  | none => some nilBodyError
  | some _ => put input

/-- The text of the batch error of `UploadWithIterator` (the rendering of the causes,
which the SDK appends, is left out; the causes are kept in `Drain.errs`). -/
def batchUploadIncomplete : String :=
  "BatchedUploadIncomplete: some objects have failed to upload."

/-- `s3manager.Uploader.UploadWithIterator` of the AWS SDK: while `Next()` is true,
take `UploadObject()`, pass its input to `UploadWithContext`, run the `After` hook
if there is one, collect the errors with bucket and key; return a batch error when
some were collected. One unit of fuel is spent per test of `Next()`. -/
def uploadWithIterator (host : Host) (put : UploadInput → Option String) :
    Nat → SyncFolderIterator → List UploadInput → List S3Error → Run Drain
  | 0, _, _, _ => .outOfFuel
  | fuel + 1, iter, handed, errs =>
    if iter.Next then
      match iter.UploadObject host with
      | none => .panic
      | some (iter1, object) =>
        let errs := match uploadWithContext put object.Object with
          | some e =>
            errs ++ [{ OrigErr := e, Bucket := object.Object.Bucket, Key := object.Object.Key }]
          | none => errs
        let errs := match object.After with
          | some (some e) =>
            errs ++ [{ OrigErr := e, Bucket := object.Object.Bucket, Key := object.Object.Key }]
          | _ => errs
        uploadWithIterator host put fuel iter1 (handed ++ [object.Object]) errs
    else
      .ret { iter := iter, handed := handed, errs := errs,
             err := if errs.length > 0 then some batchUploadIncomplete else none }

/-- What a call of `S3.Upload` did: the returned error, the log lines, the worklist
discovered, whether `UploadWithIterator` was called, the inputs handed to
`UploadWithContext`, the per-object errors of the batch and the worklist items left
unconsumed. -/
structure UploadResult where
  err : Option String
  log : List String
  discovered : List fileInfo
  transportCalled : Bool
  handed : List UploadInput
  failed : List S3Error
  remaining : List fileInfo
  deriving DecidableEq, Repr

/-- `S3.Upload` (s3.go lines 36-52), with the fuel of the upload loop. The first
statement, `s3manager.NewUploader(s3.session)`, dereferences the session: on an `S3`
that was never connected it panics before the walk. -/
def S3.Upload (s3 : S3) (host : Host) (put : UploadInput → Option String) (fuel : Nat)
    (localPath dstPath : String) : Run UploadResult :=
  match s3.session with
  | none => .panic
  | some _ =>
    let r := newSyncFolderIterator s3 host localPath dstPath
    let iter := r.1
    match r.2 with
    | some err =>
      .ret { err := some err, log := [], discovered := iter.fileInfos,
             transportCalled := false, handed := [], failed := [],
             remaining := iter.fileInfos }
    | none =>
      let log := ["Ready for upload " ++ toString iter.fileInfos.length ++ " files"]
      if s3.DryRun then
        .ret { err := none, log := log ++ ["... skip because dry-dun"],
               discovered := iter.fileInfos, transportCalled := false, handed := [],
               failed := [], remaining := iter.fileInfos }
      else
        match uploadWithIterator host put fuel iter [] [] with
        | .outOfFuel => .outOfFuel
        | .panic => .panic
        | .ret d =>
          match d.err with
          | some err =>
            .ret { err := some err, log := log, discovered := iter.fileInfos,
                   transportCalled := true, handed := d.handed, failed := d.errs,
                   remaining := d.iter.fileInfos }
          | none =>
            .ret { err := d.iter.Err, log := log, discovered := iter.fileInfos,
                   transportCalled := true, handed := d.handed, failed := d.errs,
                   remaining := d.iter.fileInfos }

/-- The tree of the example: a directory with the entries `a/one.txt` and
`b/two.bin`. -/
def demoTree : FsNode :=
  .dir (.cons "a" (.dir (.cons "one.txt" .file .nil))
       (.cons "b" (.dir (.cons "two.bin" .file .nil)) .nil))

/-- A host holding `demoTree` at every path, where every file opens and only `.txt`
has a known content type. -/
def demoHost : Host :=
  { tree := fun _ => demoTree,
    Open := fun p => .ok ("content of " ++ p),
    TypeByExtension := fun e => if e = ".txt" then "text/plain; charset=utf-8" else "" }

/-- The same host with `os.Open` failing on every path that ends in `.bin`. -/
def demoHostDenied : Host :=
  { demoHost with
    Open := fun p => if Ext p = ".bin" then .error ("open " ++ p ++ ": permission denied")
      else .ok ("content of " ++ p) }

/-- The configuration of the demo target: bucket `backups`, no base path. -/
def demoS3Config : S3Config :=
  { AccessKey := "key", SecretKey := "secret", Region := "us-east-1", Endpoint := "",
    DisableSSL := false, ForcePathStyle := false, Bucket := "backups", ACL := "private",
    Path := "" }

/-- A connected S3 target with bucket `backups`, no base path, dry-run off: the
result of `Connect` on the demo configuration. -/
def demoS3 : S3 :=
  (S3.Connect (fun _ => none) { session := none, Config := demoS3Config, DryRun := false }).1

/-- An object store that accepts every object. -/
def demoPut : UploadInput → Option String := fun _ => none

/-! ## `sort.SliceStable` -/

/-- The inner loop of the insertion sort of Go's `sort` package: the new element `x`
moves towards the front while it is less than the element before it. The sorted
prefix is held last element first. -/
def insertBack {α : Type} (less : α → α → Bool) (x : α) : List α → List α
  | [] => [x]
  | p :: rest => if less x p then p :: insertBack less x rest else x :: p :: rest

/-- `sort.SliceStable`, as the insertion sort of Go's `sort` package run over the
whole slice. (Go runs this insertion sort on blocks of 20 elements and merges the
sorted blocks with a stable merge; for a strict weak order the result of a stable
sort is unique, so the slices agree.) -/
def sliceStable {α : Type} (less : α → α → Bool) (l : List α) : List α :=
  (l.foldl (fun sortedRev x => insertBack less x sortedRev) []).reverse

/-! ## The local scan (`GetLocalBackups`) -/

/-- `clickhouse.Disk`, the two fields `GetLocalBackups` sets. -/
structure Disk where
  Name : String
  Path : String
  deriving DecidableEq, Repr

/-- The part of `os.FileInfo` the scan reads from `os.Stat`. -/
structure StatInfo where
  IsDir : Bool
  ModTime : Int
  deriving DecidableEq, Repr

/-- The outcome of `os.Open(backupsPath)` followed by `d.Readdirnames(-1)`: the
directory does not exist, the open fails otherwise, the directory opens and the
listing fails, or the directory opens and the listing gives the names. -/
inductive OpenDir where
  | notExist : String → OpenDir
  | failed : String → OpenDir
  | readdirFailed : String → OpenDir
  | opened : List String → OpenDir
  deriving DecidableEq

/-- The outcome of `os.ReadFile`: the file does not exist, the read fails otherwise
(with the error and the bytes read before it, none when the file did not open), or
the body. -/
inductive ReadFile where
  | notExist : String → ReadFile
  | failed : String → String → ReadFile
  | body : String → ReadFile
  deriving DecidableEq

/-- The collaborators of `GetLocalBackups`: the ClickHouse connection
(`Connect`, `GetDisks`, `GetDefaultPath`), the file system (`os.Open` with
`Readdirnames`, `os.Stat`, `os.ReadFile`) and `json.Unmarshal` into a zero-valued
`metadata.BackupMetadata`. -/
structure LocalEnv where
  Connect : Option String
  GetDisks : Except String (List Disk)
  GetDefaultPath : List Disk → Except String String
  Open : String → OpenDir
  Stat : String → Except String StatInfo
  ReadFile : String → ReadFile
  Unmarshal : String → Except String BackupMetadata

/-- What `GetLocalBackups` returns (`none` is a nil slice), and the warning it logs
when ClickHouse cannot be reached. -/
structure LocalScan where
  backups : Option (List BackupLocal)
  disks : Option (List Disk)
  err : Option String
  warnings : List String

/-- The `for _, name := range names` loop of `GetLocalBackups` (print.go lines
167-196): the slice `result` after the loop, or the error of a metadata file that
does not parse. -/
def scanNames (env : LocalEnv) (backupsPath : String) :
    List String → List BackupLocal → Except String (List BackupLocal)
  | [], result => .ok result
  | name :: names, result =>
    match env.Stat (pathJoin [backupsPath, name]) with
    | .error _ => scanNames env backupsPath names result
    | .ok info =>
      if !info.IsDir then scanNames env backupsPath names result
      else
        let backupMetafilePath := pathJoin [backupsPath, name, "metadata.json"]
        match env.ReadFile backupMetafilePath with
        | .notExist _ =>
          scanNames env backupsPath names (result ++ [
            { BackupMetadata :=
                { BackupMetadata.zero with BackupName := name, CreationDate := info.ModTime },
              Legacy := true }])
        | .failed _ backupMetadataBody =>
          match env.Unmarshal backupMetadataBody with
          | .error e => .error e
          | .ok backupMetadata =>
            scanNames env backupsPath names (result ++ [
              { BackupMetadata := backupMetadata, Legacy := false }])
        | .body backupMetadataBody =>
          match env.Unmarshal backupMetadataBody with
          | .error e => .error e
          | .ok backupMetadata =>
            scanNames env backupsPath names (result ++ [
              { BackupMetadata := backupMetadata, Legacy := false }])

/-- The comparison `GetLocalBackups` passes to `sort.SliceStable`:
`result[i].CreationDate.Before(result[j].CreationDate)`. -/
def createdBefore (a b : BackupLocal) : Bool :=
  decide (a.BackupMetadata.CreationDate < b.BackupMetadata.CreationDate)

/-- The tail of `GetLocalBackups` from `ch.GetDefaultPath(disks)` on (print.go lines
145-200). -/
def scanBackups (env : LocalEnv) (disks : List Disk) (warnings : List String) : LocalScan :=
  match env.GetDefaultPath disks with
  | .error e => { backups := none, disks := none, err := some e, warnings := warnings }
  | .ok dataPath =>
    let result : List BackupLocal := []
    let backupsPath := pathJoin [dataPath, "backup"]
    match env.Open backupsPath with
    | .notExist _ =>
      { backups := some result, disks := some disks, err := none, warnings := warnings }
    | .failed e => { backups := none, disks := none, err := some e, warnings := warnings }
    | .readdirFailed e =>
      { backups := none, disks := none, err := some e, warnings := warnings }
    | .opened names =>
      match scanNames env backupsPath names result with
      | .error e => { backups := none, disks := some disks, err := some e, warnings := warnings }
      | .ok result =>
        { backups := some (sliceStable createdBefore result), disks := some disks, err := none,
          warnings := warnings }

/-- `GetLocalBackups` (print.go lines 125-201); `disks = none` is the nil slice. -/
def GetLocalBackups (env : LocalEnv) (disks : Option (List Disk)) : LocalScan :=
  let err := env.Connect
  let warnings := match err with
    | some e => ["can't connect to clickhouse: " ++ e ++
        " will try get backup directly from /var/lib/clickhouse/"]
    | none => []
  match disks, err with
  | none, none =>
    match env.GetDisks with
    | .error e => { backups := none, disks := none, err := some e, warnings := warnings }
    | .ok disks => scanBackups env disks warnings
  | none, some _ =>
    scanBackups env [{ Name := "default", Path := "/var/lib/clickhouse" }] warnings
  | some disks, _ => scanBackups env disks warnings

/-! ## The remote listing (`GetRemoteBackups`) -/

/-- The collaborators of `GetRemoteBackups`, over the state `σ` of the remote
destination: the configured `remote_storage`, `storage.NewBackupDestination`,
`bd.Connect` and `bd.BackupList(parseMetadata, name)`. -/
structure RemoteEnv (σ : Type) where
  RemoteStorage : String
  NewBackupDestination : Option String
  Connect : σ → σ × Option String
  BackupList : Bool → String → σ → σ × Except String (List Backup)

/-- What `GetRemoteBackups` returns, the listings it issued (in order, with their
arguments) and the state it leaves the destination in. -/
structure RemoteListing (σ : Type) where
  backups : List Backup
  err : Option String
  listings : List (Bool × String)
  state : σ

/-- `GetRemoteBackups` (print.go lines 262-286). -/
def GetRemoteBackups {σ : Type} (env : RemoteEnv σ) (s : σ) (parseMetadata : Bool) :
    RemoteListing σ :=
  if env.RemoteStorage = "none" then
    { backups := [], err := some "remote_storage is 'none'", listings := [], state := s }
  else
    match env.NewBackupDestination with
    | some e => { backups := [], err := some e, listings := [], state := s }
    | none =>
      match env.Connect s with
      | (s1, some e) => { backups := [], err := some e, listings := [], state := s1 }
      | (s1, none) =>
        match env.BackupList parseMetadata "" s1 with
        | (s2, .error e) =>
          { backups := [], err := some e, listings := [(parseMetadata, "")], state := s2 }
        | (s2, .ok backupList) =>
          if h : parseMetadata = false ∧ backupList.length > 0 then
            let lastBackup := backupList.get ⟨backupList.length - 1, by omega⟩
            match env.BackupList true lastBackup.BackupMetadata.BackupName s2 with
            | (s3, .error e) =>
              { backups := [], err := some e,
                listings := [(parseMetadata, ""), (true, lastBackup.BackupMetadata.BackupName)],
                state := s3 }
            | (s3, .ok backupList) =>
              { backups := backupList, err := none,
                listings := [(parseMetadata, ""), (true, lastBackup.BackupMetadata.BackupName)],
                state := s3 }
          else
            { backups := backupList, err := none, listings := [(parseMetadata, "")],
              state := s2 }

/-! ## Vocabulary of the statements -/

/-- The mode strings that select the most recent backup. -/
def ModeLatest (mode : String) : Prop := mode = "latest" ∨ mode = "last" ∨ mode = "l"

/-- The mode strings that select the backup before the most recent one. -/
def ModePenult (mode : String) : Prop :=
  mode = "penult" ∨ mode = "prev" ∨ mode = "previous" ∨ mode = "p"

/-- The mode strings that list the whole catalog. -/
def ModeAll (mode : String) : Prop := mode = "all" ∨ mode = ""

instance (mode : String) : Decidable (ModeLatest mode) := by unfold ModeLatest; infer_instance

instance (mode : String) : Decidable (ModePenult mode) := by unfold ModePenult; infer_instance

instance (mode : String) : Decidable (ModeAll mode) := by unfold ModeAll; infer_instance

/-- The size column the listing is to show for a local record: the unknown marker
for a legacy or broken record, else the formatted `CompressedSize + MetadataSize`
when `CompressedSize` is non-zero and the formatted `DataSize + MetadataSize` when it
is zero. -/
def localSizeColumn (env : PrintEnv) (b : BackupLocal) : String :=
  if b.Legacy = true ∨ b.BackupMetadata.Broken ≠ "" then "???"
  else if b.BackupMetadata.CompressedSize ≠ 0 then
    env.FormatBytes (addU64 b.BackupMetadata.CompressedSize b.BackupMetadata.MetadataSize)
  else env.FormatBytes (addU64 b.BackupMetadata.DataSize b.BackupMetadata.MetadataSize)

/-- The size column the listing is to show for a remote record: as for a local one,
with the broken reason alone giving the unknown marker. -/
def remoteSizeColumn (env : PrintEnv) (b : Backup) : String :=
  if b.BackupMetadata.Broken ≠ "" then "???"
  else if b.BackupMetadata.CompressedSize ≠ 0 then
    env.FormatBytes (addU64 b.BackupMetadata.CompressedSize b.BackupMetadata.MetadataSize)
  else env.FormatBytes (addU64 b.BackupMetadata.DataSize b.BackupMetadata.MetadataSize)

/-! ## Concrete inputs used to exercise the statements -/

/-- A printing environment whose byte formatter renders `n` as `nB`, whose time
formatter renders the instant as a number, and whose writer never fails. -/
def demoPrintEnv : PrintEnv :=
  { FormatBytes := fun n => toString n ++ "B",
    FormatTime := fun t => toString t,
    Fprintf := fun _ => none }

/-- A metadata record with the given name, creation instant and sizes. -/
def demoMeta (name : String) (created : Int) (data meta compressed : Nat) : BackupMetadata :=
  { BackupMetadata.zero with
    BackupName := name, CreationDate := created, DataSize := data, MetadataSize := meta,
    CompressedSize := compressed }

/-- A local catalog of three backups. -/
def demoLocals : List BackupLocal :=
  [ { BackupMetadata := demoMeta "monday" 10 100 5 0, Legacy := false },
    { BackupMetadata := demoMeta "tuesday" 20 0 0 0, Legacy := true },
    { BackupMetadata := demoMeta "wednesday" 30 300 7 40, Legacy := false } ]

/-- A remote catalog of two backups, the second one broken. -/
def demoRemotes : List Backup :=
  [ { BackupMetadata := demoMeta "monday" 10 100 5 0, Legacy := true, UploadDate := 11 },
    { BackupMetadata := { demoMeta "tuesday" 20 200 6 50 with Broken := "no metadata.json" },
      Legacy := false, UploadDate := 21 } ]

/-! ## Vocabulary of the upload statements -/

/-- The error `os.Open` reports for a worklist item, if it fails. -/
def openError (host : Host) (fi : fileInfo) : Option String :=
  match host.Open fi.fullpath with
  | .ok _ => none
  | .error e => some e

/-- The upload input `UploadObject` builds for a worklist item of an iterator with
the given ACL, bucket and destination path. -/
def inputOf (host : Host) (acl bucket s3path : String) (fi : fileInfo) : UploadInput :=
  { ACL := acl, Bucket := bucket, Key := pathJoin [s3path, fi.key],
    Body := match host.Open fi.fullpath with
      | .ok f => some f
      | .error _ => none,
    ContentType :=
      if host.TypeByExtension (Ext fi.key) = "" then "binary/octet-stream"
      else host.TypeByExtension (Ext fi.key) }

/-- The per-object error `UploadWithIterator` records for an input, if
`UploadWithContext` refuses it. -/
def objectError (put : UploadInput → Option String) (input : UploadInput) : Option S3Error :=
  match uploadWithContext put input with
  | some e => some { OrigErr := e, Bucket := input.Bucket, Key := input.Key }
  | none => none

/-- The value of a run that returned. -/
def Run.get? {α : Type} : Run α → Option α
  | .ret a => some a
  | _ => none

mutual
/-- A tree in which every `lstat` and every directory listing succeeds. -/
def FsNode.readable : FsNode → Bool
  | .file => true
  | .special => true
  | .dir entries => entries.readable
  | .dirUnreadable _ => false
  | .lstatFails _ => false
/-- Entries that are all readable trees. -/
def FsEntries.readable : FsEntries → Bool
  | .nil => true
  | .cons _ node rest => node.readable && rest.readable
end

mutual
/-- The paths of the non-directory entries of a tree rooted at `path`, in the order
of the names. -/
def FsNode.filePaths (path : String) : FsNode → List String
  | .file => [path]
  | .special => [path]
  | .dir entries => entries.filePaths path
  | .dirUnreadable _ => []
  | .lstatFails _ => []
/-- The paths of the non-directory entries below the entries of a directory. -/
def FsEntries.filePaths (path : String) : FsEntries → List String
  | .nil => []
  | .cons name node rest => node.filePaths (pathJoin [path, name]) ++ rest.filePaths path
end

mutual
/-- The paths of the regular files of a tree rooted at `path`, in the order of the
names. -/
def FsNode.regularPaths (path : String) : FsNode → List String
  | .file => [path]
  | .special => []
  | .dir entries => entries.regularPaths path
  | .dirUnreadable _ => []
  | .lstatFails _ => []
/-- The paths of the regular files below the entries of a directory. -/
def FsEntries.regularPaths (path : String) : FsEntries → List String
  | .nil => []
  | .cons name node rest =>
    node.regularPaths (pathJoin [path, name]) ++ rest.regularPaths path
end

mutual
/-- A tree whose non-directory entries are all regular files. -/
def FsNode.onlyRegular : FsNode → Bool
  | .file => true
  | .special => false
  | .dir entries => entries.onlyRegular
  | .dirUnreadable _ => true
  | .lstatFails _ => true
/-- Entries that are all trees with regular files only. -/
def FsEntries.onlyRegular : FsEntries → Bool
  | .nil => true
  | .cons _ node rest => node.onlyRegular && rest.onlyRegular
end

/-- A directory with the symbolic link `current` and the regular file `one.txt`. -/
def demoTreeWithLink : FsNode := .dir (.cons "current" .special (.cons "one.txt" .file .nil))

/-- A host holding `demoTreeWithLink` at every path. -/
def demoHostWithLink : Host := { demoHost with tree := fun _ => demoTreeWithLink }

/-- The connected demo target with dry-run on. -/
def demoS3DryRun : S3 := { demoS3 with DryRun := true }

/-- A directory with the entries `a.bin` and `b.bin`. -/
def demoTreeTwoBin : FsNode := .dir (.cons "a.bin" .file (.cons "b.bin" .file .nil))

/-- A host holding `demoTreeTwoBin` where `os.Open` fails on every path, with an
error that names the path. -/
def demoHostAllDenied : Host :=
  { tree := fun _ => demoTreeTwoBin,
    Open := fun p => .error ("open " ++ p ++ ": permission denied"),
    TypeByExtension := fun _ => "" }

/-- A host whose walk fails: the directory `b` of the tree cannot be read. -/
def demoHostWalkFails : Host :=
  { demoHost with
    tree := fun _ => .dir (.cons "a" (.dir (.cons "one.txt" .file .nil))
      (.cons "b" (.dirUnreadable "open b: permission denied") .nil)) }

/-! ## Vocabulary of the scan statements -/

/-- The name is a directory of the backups path: `os.Stat` succeeds and reports a
directory. -/
def isBackupDir (env : LocalEnv) (backupsPath name : String) : Bool :=
  match env.Stat (pathJoin [backupsPath, name]) with
  | .ok info => info.IsDir
  | .error _ => false

/-- The record of the backup directory `name`: the legacy record when it has no
`metadata.json`, the parsed metadata otherwise; an error when the metadata does not
parse. -/
def loadBackup (env : LocalEnv) (backupsPath name : String) : Except String BackupLocal :=
  match env.ReadFile (pathJoin [backupsPath, name, "metadata.json"]) with
  | .notExist _ =>
    match env.Stat (pathJoin [backupsPath, name]) with
    | .ok info =>
      .ok { BackupMetadata :=
              { BackupMetadata.zero with BackupName := name, CreationDate := info.ModTime },
            Legacy := true }
    | .error e => .error e
  | .failed _ partialBody =>
    match env.Unmarshal partialBody with
    | .ok m => .ok { BackupMetadata := m, Legacy := false }
    | .error e => .error e
  | .body b =>
    match env.Unmarshal b with
    | .ok m => .ok { BackupMetadata := m, Legacy := false }
    | .error e => .error e

/-- The record of a name, if the name is a backup directory whose record loads. -/
def recordOf (env : LocalEnv) (backupsPath name : String) : Option BackupLocal :=
  if isBackupDir env backupsPath name then
    match loadBackup env backupsPath name with
    | .ok b => some b
    | .error _ => none
  else none

/-- The records of the backup directories among `names`, in the order of the names
(the discovery order). -/
def discovered (env : LocalEnv) (backupsPath : String) (names : List String) :
    List BackupLocal :=
  names.filterMap (recordOf env backupsPath)

/-- The disks `GetLocalBackups` scans with: the ones passed in, else the ones
ClickHouse reports, else (ClickHouse unreachable) the default disk. -/
def resolvedDisks (env : LocalEnv) (disks : Option (List Disk)) : Except String (List Disk) :=
  match disks with
  | some ds => .ok ds
  | none =>
    match env.Connect with
    | none => env.GetDisks
    | some _ => .ok [{ Name := "default", Path := "/var/lib/clickhouse" }]

/-- A data root with four entries under `/var/lib/clickhouse/backup`: the directory
`b2` with metadata created at instant 20, the legacy directory `b1` modified at
instant 10, the plain file `notes.txt`, and the directory `b3` with metadata created
at instant 20. ClickHouse is unreachable, so the default disk is used. -/
def demoLocalEnv : LocalEnv :=
  { Connect := some "connection refused",
    GetDisks := .error "not connected",
    GetDefaultPath := fun _ => .ok "/var/lib/clickhouse",
    Open := fun p =>
      if p = "/var/lib/clickhouse/backup" then .opened ["b2", "b1", "notes.txt", "b3"]
      else .notExist "no such file or directory",
    Stat := fun p =>
      if p = "/var/lib/clickhouse/backup/b1" then .ok { IsDir := true, ModTime := 10 }
      else if p = "/var/lib/clickhouse/backup/b2" then .ok { IsDir := true, ModTime := 25 }
      else if p = "/var/lib/clickhouse/backup/b3" then .ok { IsDir := true, ModTime := 26 }
      else if p = "/var/lib/clickhouse/backup/notes.txt" then
        .ok { IsDir := false, ModTime := 5 }
      else .error "no such file or directory",
    ReadFile := fun p =>
      if p = "/var/lib/clickhouse/backup/b2/metadata.json" then .body "b2"
      else if p = "/var/lib/clickhouse/backup/b3/metadata.json" then .body "b3"
      else .notExist "no such file or directory",
    Unmarshal := fun body =>
      if body = "b2" then .ok (demoMeta "b2" 20 200 2 0)
      else if body = "b3" then .ok (demoMeta "b3" 20 300 3 0)
      else .error "unexpected end of JSON input" }

/-- The catalog the scan of the demo data root returns. -/
def demoScannedCatalog : List BackupLocal :=
  sliceStable createdBefore
    (discovered demoLocalEnv "/var/lib/clickhouse/backup" ["b2", "b1", "notes.txt", "b3"])

/-- The same data root where the metadata files of `b2` and `b3` both carry the
backup name `nightly` (the directory `b3` is a copy of `b2` made later). -/
def demoLocalEnvCopied : LocalEnv :=
  { demoLocalEnv with
    Unmarshal := fun body =>
      if body = "b2" then .ok (demoMeta "nightly" 20 200 2 0)
      else if body = "b3" then .ok (demoMeta "nightly" 30 200 2 0)
      else .error "unexpected end of JSON input" }

/-- What `GetRemoteBackups` returns for the outcome of a listing: the list and no
error, or the empty list and the error. -/
def listingResult (r : Except String (List Backup)) : List Backup × Option String :=
  match r with
  | .ok l => (l, none)
  | .error e => ([], some e)

/-- The remote catalog as a listing without metadata returns it: names and upload
instants only. -/
def demoRemoteNames : List Backup :=
  demoRemotes.map fun (b : Backup) =>
    ({ BackupMetadata := { BackupMetadata.zero with BackupName := b.BackupMetadata.BackupName },
       Legacy := false, UploadDate := b.UploadDate } : Backup)

/-- A remote destination whose state counts the listings it served. A listing
without metadata returns the names only; a listing with metadata returns the full
records. -/
def demoRemoteEnv : RemoteEnv Nat :=
  { RemoteStorage := "s3",
    NewBackupDestination := none,
    Connect := fun s => (s, none),
    BackupList := fun parseMetadata _ s =>
      (s + 1, .ok (if parseMetadata then demoRemotes else demoRemoteNames)) }

/-! ## Properties of the catalog selection -/

theorem undefinedErr_ne_of_head (format s : String) (c : Char) (cs : List Char)
    (hs : s.data = c :: cs) (hc : c ≠ Char.ofNat 39) : undefinedErr format ≠ s := by
  intro h
  have h2 := congrArg String.data h
  rw [hs] at h2
  simp [undefinedErr, String.data_append] at h2
  exact hc h2.1.symm

theorem modeLatest_not_penult {mode : String} (h : ModeLatest mode) : ¬ ModePenult mode := by
  rcases h with h | h | h <;> subst h <;> decide

theorem modeLatest_not_all {mode : String} (h : ModeLatest mode) : ¬ ModeAll mode := by
  rcases h with h | h | h <;> subst h <;> decide

theorem modePenult_not_all {mode : String} (h : ModePenult mode) : ¬ ModeAll mode := by
  rcases h with h | h | h | h <;> subst h <;> decide

theorem printBackupsLocal_err (env : PrintEnv) (l : List BackupLocal) (mode : String) :
    (printBackupsLocal env l mode).err =
      if ModeLatest mode then (if l.length < 1 then some "no backups found" else none)
      else if ModePenult mode then
        (if l.length < 2 then some "no penult backup is found" else none)
      else if ModeAll mode then none else some (undefinedErr mode) := by
  unfold printBackupsLocal ModeLatest ModePenult ModeAll
  split_ifs <;> rfl

theorem printBackupsRemote_err (env : PrintEnv) (l : List Backup) (mode : String) :
    (printBackupsRemote env l mode).err =
      if ModeLatest mode then (if l.length < 1 then some "no backups found" else none)
      else if ModePenult mode then
        (if l.length < 2 then some "no penult backup is found" else none)
      else if ModeAll mode then none else some (undefinedErr mode) := by
  unfold printBackupsRemote ModeLatest ModePenult ModeAll
  split_ifs <;> rfl

theorem selectErr_ne_none_iff (n : Nat) (mode : String) :
    ((if ModeLatest mode then (if n < 1 then some "no backups found" else none)
      else if ModePenult mode then
        (if n < 2 then some "no penult backup is found" else none)
      else if ModeAll mode then none else some (undefinedErr mode)) ≠ none ↔
      (ModeLatest mode ∧ n = 0) ∨ (ModePenult mode ∧ n < 2) ∨
        (¬ ModeLatest mode ∧ ¬ ModePenult mode ∧ mode ≠ "all" ∧ mode ≠ "")) := by
  by_cases h1 : ModeLatest mode
  · have h2 := modeLatest_not_penult h1
    by_cases h3 : n < 1
    · simp [h1, h3]; omega
    · simp [h1, h2, h3]; omega
  · by_cases h2 : ModePenult mode
    · by_cases h3 : n < 2 <;> simp [h1, h2, h3]
    · by_cases h3 : ModeAll mode
      · have h4 : ¬ (mode ≠ "all" ∧ mode ≠ "") := by
          rcases h3 with h | h <;> simp [h]
        simp only [h1, h2, h3, if_true, if_false]
        simp only [ne_eq, not_true_eq_false, false_iff]
        rintro (⟨h, _⟩ | ⟨h, _⟩ | ⟨_, _, h5, h6⟩)
        · exact h.elim
        · exact h.elim
        · exact h4 ⟨h5, h6⟩
      · have h4 : mode ≠ "all" ∧ mode ≠ "" := by
          unfold ModeAll at h3; push_neg at h3; exact h3
        simp [h1, h2, h3, h4.1, h4.2]

/-- C1: `printBackupsLocal` and `printBackupsRemote` return an error exactly when the
mode is a "latest" mode and the catalog is empty, or the mode is a "penult" mode and
the catalog has fewer than two entries, or the mode is none of the nine known
strings; "all" and "" succeed on the empty catalog; each failure kind has its own
message and the three messages are pairwise different. -/
theorem printBackups_error_iff (env : PrintEnv) (locals : List BackupLocal)
    (remotes : List Backup) (mode : String) :
    ((printBackupsLocal env locals mode).err ≠ none ↔
      (ModeLatest mode ∧ locals.length = 0) ∨ (ModePenult mode ∧ locals.length < 2) ∨
        (¬ ModeLatest mode ∧ ¬ ModePenult mode ∧ mode ≠ "all" ∧ mode ≠ "")) ∧
    ((printBackupsRemote env remotes mode).err ≠ none ↔
      (ModeLatest mode ∧ remotes.length = 0) ∨ (ModePenult mode ∧ remotes.length < 2) ∨
        (¬ ModeLatest mode ∧ ¬ ModePenult mode ∧ mode ≠ "all" ∧ mode ≠ "")) ∧
    ((printBackupsLocal env [] "all").err = none ∧ (printBackupsLocal env [] "").err = none ∧
      (printBackupsRemote env [] "all").err = none ∧
      (printBackupsRemote env [] "").err = none) ∧
    ((ModeLatest mode ∧ locals.length = 0 →
        (printBackupsLocal env locals mode).err = some "no backups found") ∧
      (ModePenult mode ∧ locals.length < 2 →
        (printBackupsLocal env locals mode).err = some "no penult backup is found") ∧
      (¬ ModeLatest mode ∧ ¬ ModePenult mode ∧ mode ≠ "all" ∧ mode ≠ "" →
        (printBackupsLocal env locals mode).err = some (undefinedErr mode))) ∧
    ((ModeLatest mode ∧ remotes.length = 0 →
        (printBackupsRemote env remotes mode).err = some "no backups found") ∧
      (ModePenult mode ∧ remotes.length < 2 →
        (printBackupsRemote env remotes mode).err = some "no penult backup is found") ∧
      (¬ ModeLatest mode ∧ ¬ ModePenult mode ∧ mode ≠ "all" ∧ mode ≠ "" →
        (printBackupsRemote env remotes mode).err = some (undefinedErr mode))) ∧
    ("no backups found" ≠ "no penult backup is found" ∧
      undefinedErr mode ≠ "no backups found" ∧
      undefinedErr mode ≠ "no penult backup is found") := by
  have hmsg : "no backups found" ≠ "no penult backup is found" ∧
      undefinedErr mode ≠ "no backups found" ∧
      undefinedErr mode ≠ "no penult backup is found" := by
    refine ⟨by decide, ?_, ?_⟩
    · exact undefinedErr_ne_of_head mode _ 'n' "o backups found".data rfl (by decide)
    · exact undefinedErr_ne_of_head mode _ 'n' "o penult backup is found".data rfl (by decide)
  have hall : ∀ m : String, ¬ ModeLatest m → ¬ ModePenult m → m ≠ "all" → m ≠ "" →
      ¬ ModeAll m := by
    intro m _ _ h3 h4 h; rcases h with h | h
    · exact h3 h
    · exact h4 h
  refine ⟨?_, ?_, ⟨?_, ?_, ?_, ?_⟩, ⟨?_, ?_, ?_⟩, ⟨?_, ?_, ?_⟩, hmsg⟩
  · rw [printBackupsLocal_err]; exact selectErr_ne_none_iff _ _
  · rw [printBackupsRemote_err]; exact selectErr_ne_none_iff _ _
  · rw [printBackupsLocal_err]; decide
  · rw [printBackupsLocal_err]; decide
  · rw [printBackupsRemote_err]; decide
  · rw [printBackupsRemote_err]; decide
  · rintro ⟨h1, h2⟩; rw [printBackupsLocal_err]; simp [h1, h2]
  · rintro ⟨h1, h2⟩; rw [printBackupsLocal_err]
    have h0 : ¬ ModeLatest mode := fun h => modeLatest_not_penult h h1
    simp [h0, h1, h2]
  · rintro ⟨h1, h2, h3, h4⟩; rw [printBackupsLocal_err]
    simp [h1, h2, hall mode h1 h2 h3 h4]
  · rintro ⟨h1, h2⟩; rw [printBackupsRemote_err]; simp [h1, h2]
  · rintro ⟨h1, h2⟩; rw [printBackupsRemote_err]
    have h0 : ¬ ModeLatest mode := fun h => modeLatest_not_penult h h1
    simp [h0, h1, h2]
  · rintro ⟨h1, h2, h3, h4⟩; rw [printBackupsRemote_err]
    simp [h1, h2, hall mode h1 h2 h3 h4]

/-- C2: with a "latest" mode and at least one entry both printing functions print the
name of the entry at position `n - 1`; with a "penult" mode and at least two entries
they print the name of the entry at position `n - 2`. The position depends only on
the mode and the length, and is the same in the local and in the remote function. -/
theorem printBackups_selected_position (env : PrintEnv) (locals : List BackupLocal)
    (remotes : List Backup) (mode : String) :
    (ModeLatest mode → ∀ h : 1 ≤ locals.length,
      (printBackupsLocal env locals mode).err = none ∧
      (printBackupsLocal env locals mode).stdout =
        [(locals.get ⟨locals.length - 1, by omega⟩).BackupMetadata.BackupName]) ∧
    (ModeLatest mode → ∀ h : 1 ≤ remotes.length,
      (printBackupsRemote env remotes mode).err = none ∧
      (printBackupsRemote env remotes mode).stdout =
        [(remotes.get ⟨remotes.length - 1, by omega⟩).BackupMetadata.BackupName]) ∧
    (ModePenult mode → ∀ h : 2 ≤ locals.length,
      (printBackupsLocal env locals mode).err = none ∧
      (printBackupsLocal env locals mode).stdout =
        [(locals.get ⟨locals.length - 2, by omega⟩).BackupMetadata.BackupName]) ∧
    (ModePenult mode → ∀ h : 2 ≤ remotes.length,
      (printBackupsRemote env remotes mode).err = none ∧
      (printBackupsRemote env remotes mode).stdout =
        [(remotes.get ⟨remotes.length - 2, by omega⟩).BackupMetadata.BackupName]) := by
  refine ⟨?_, ?_, ?_, ?_⟩
  · intro hm h
    have h1 : ¬ locals.length < 1 := by omega
    have hm1 : mode = "latest" ∨ mode = "last" ∨ mode = "l" := hm
    unfold printBackupsLocal
    rw [if_pos hm1, dif_neg h1]
    exact ⟨rfl, rfl⟩
  · intro hm h
    have h1 : ¬ remotes.length < 1 := by omega
    have hm1 : mode = "latest" ∨ mode = "last" ∨ mode = "l" := hm
    unfold printBackupsRemote
    rw [if_pos hm1, dif_neg h1]
    exact ⟨rfl, rfl⟩
  · intro hm h
    have h1 : ¬ locals.length < 2 := by omega
    have hm0 : ¬ (mode = "latest" ∨ mode = "last" ∨ mode = "l") :=
      fun h0 => modeLatest_not_penult h0 hm
    have hm1 : mode = "penult" ∨ mode = "prev" ∨ mode = "previous" ∨ mode = "p" := hm
    unfold printBackupsLocal
    rw [if_neg hm0, if_pos hm1, dif_neg h1]
    exact ⟨rfl, rfl⟩
  · intro hm h
    have h1 : ¬ remotes.length < 2 := by omega
    have hm0 : ¬ (mode = "latest" ∨ mode = "last" ∨ mode = "l") :=
      fun h0 => modeLatest_not_penult h0 hm
    have hm1 : mode = "penult" ∨ mode = "prev" ∨ mode = "previous" ∨ mode = "p" := hm
    unfold printBackupsRemote
    rw [if_neg hm0, if_pos hm1, dif_neg h1]
    exact ⟨rfl, rfl⟩

/-- Witness of C2: on the three-entry local catalog "last" prints the third name and
"prev" the second; on the two-entry remote catalog "l" prints the second name and
"p" the first. -/
theorem printBackups_selected_position_witness :
    (printBackupsLocal demoPrintEnv demoLocals "last").stdout = ["wednesday"] ∧
    (printBackupsLocal demoPrintEnv demoLocals "prev").stdout = ["tuesday"] ∧
    (printBackupsRemote demoPrintEnv demoRemotes "l").stdout = ["tuesday"] ∧
    (printBackupsRemote demoPrintEnv demoRemotes "p").stdout = ["monday"] :=
  ⟨((printBackups_selected_position demoPrintEnv demoLocals demoRemotes "last").1
      (by decide) (by decide)).2,
   ((printBackups_selected_position demoPrintEnv demoLocals demoRemotes "prev").2.2.1
      (by decide) (by decide)).2,
   ((printBackups_selected_position demoPrintEnv demoLocals demoRemotes "l").2.1
      (by decide) (by decide)).2,
   ((printBackups_selected_position demoPrintEnv demoLocals demoRemotes "p").2.2.2
      (by decide) (by decide)).2⟩

/-- The text written for a local record is its name, the size column, the creation
date, `local`, the required backup and the description, separated by tabs and ended
by a newline. -/
theorem localRow_format (env : PrintEnv) (b : BackupLocal) :
    (localRow env b).format =
      b.BackupMetadata.BackupName ++ "\t" ++ localSizeColumn env b ++ "\t" ++
        env.FormatTime b.BackupMetadata.CreationDate ++ "\t" ++ "local" ++ "\t" ++
        (if b.BackupMetadata.RequiredBackup ≠ "" then "+" ++ b.BackupMetadata.RequiredBackup
          else "") ++ "\t" ++
        (if b.BackupMetadata.Broken ≠ "" then b.BackupMetadata.Broken
          else b.BackupMetadata.DataFormat) ++ "\n" := by
  by_cases hl : b.Legacy = true <;> by_cases hb : b.BackupMetadata.Broken = "" <;>
    by_cases hc : b.BackupMetadata.CompressedSize = 0 <;>
    simp [localRow, Row.format, localSizeColumn, hl, hb, hc, Nat.pos_iff_ne_zero]

/-- The text written for a remote record is its name, the size column, the upload
date, `remote`, the required backup and the description, separated by tabs and ended
by a newline. -/
theorem remoteRow_format (env : PrintEnv) (b : Backup) :
    (remoteRow env b).format =
      b.BackupMetadata.BackupName ++ "\t" ++ remoteSizeColumn env b ++ "\t" ++
        env.FormatTime b.UploadDate ++ "\t" ++ "remote" ++ "\t" ++
        (if b.BackupMetadata.RequiredBackup ≠ "" then "+" ++ b.BackupMetadata.RequiredBackup
          else "") ++ "\t" ++
        (if b.BackupMetadata.Broken ≠ "" then b.BackupMetadata.Broken
          else if b.Legacy = true then "old-format" else b.BackupMetadata.DataFormat) ++
        "\n" := by
  by_cases hl : b.Legacy = true <;> by_cases hb : b.BackupMetadata.Broken = "" <;>
    by_cases hc : b.BackupMetadata.CompressedSize = 0 <;>
    simp [remoteRow, Row.format, remoteSizeColumn, hl, hb, hc, Nat.pos_iff_ne_zero]

/-- C10: in a listing (mode "all" or "") the text written for every record, in
catalog order, is `name TAB size TAB date TAB location TAB required TAB description
NEWLINE`. The size column of a local record is "???" exactly when the record is
legacy or has a broken reason; otherwise it is the formatted `CompressedSize +
MetadataSize` when `CompressedSize` is non-zero and the formatted `DataSize +
MetadataSize` when it is zero (sums of `uint64`). For a remote record the same holds
with the broken reason alone giving "???". The byte formatter is assumed never to
render a number as "???". -/
theorem listing_size_column (env : PrintEnv) (hfmt : ∀ n, env.FormatBytes n ≠ "???")
    (locals : List BackupLocal) (remotes : List Backup) (mode : String)
    (hmode : ModeAll mode) :
    ((printBackupsLocal env locals mode).err = none ∧
      (printBackupsLocal env locals mode).written =
        locals.map (fun b =>
          b.BackupMetadata.BackupName ++ "\t" ++ localSizeColumn env b ++ "\t" ++
            env.FormatTime b.BackupMetadata.CreationDate ++ "\t" ++ "local" ++ "\t" ++
            (if b.BackupMetadata.RequiredBackup ≠ "" then
              "+" ++ b.BackupMetadata.RequiredBackup else "") ++ "\t" ++
            (if b.BackupMetadata.Broken ≠ "" then b.BackupMetadata.Broken
              else b.BackupMetadata.DataFormat) ++ "\n")) ∧
    (∀ b : BackupLocal,
      (localSizeColumn env b = "???" ↔ (b.Legacy = true ∨ b.BackupMetadata.Broken ≠ "")) ∧
      (¬ (b.Legacy = true ∨ b.BackupMetadata.Broken ≠ "") →
        b.BackupMetadata.CompressedSize ≠ 0 →
        localSizeColumn env b =
          env.FormatBytes (addU64 b.BackupMetadata.CompressedSize b.BackupMetadata.MetadataSize)) ∧
      (¬ (b.Legacy = true ∨ b.BackupMetadata.Broken ≠ "") →
        b.BackupMetadata.CompressedSize = 0 →
        localSizeColumn env b =
          env.FormatBytes (addU64 b.BackupMetadata.DataSize b.BackupMetadata.MetadataSize))) ∧
    ((printBackupsRemote env remotes mode).err = none ∧
      (printBackupsRemote env remotes mode).written =
        remotes.map (fun b =>
          b.BackupMetadata.BackupName ++ "\t" ++ remoteSizeColumn env b ++ "\t" ++
            env.FormatTime b.UploadDate ++ "\t" ++ "remote" ++ "\t" ++
            (if b.BackupMetadata.RequiredBackup ≠ "" then
              "+" ++ b.BackupMetadata.RequiredBackup else "") ++ "\t" ++
            (if b.BackupMetadata.Broken ≠ "" then b.BackupMetadata.Broken
              else if b.Legacy = true then "old-format" else b.BackupMetadata.DataFormat) ++
            "\n")) ∧
    (∀ b : Backup,
      (remoteSizeColumn env b = "???" ↔ b.BackupMetadata.Broken ≠ "") ∧
      (b.BackupMetadata.Broken = "" → b.BackupMetadata.CompressedSize ≠ 0 →
        remoteSizeColumn env b =
          env.FormatBytes (addU64 b.BackupMetadata.CompressedSize b.BackupMetadata.MetadataSize)) ∧
      (b.BackupMetadata.Broken = "" → b.BackupMetadata.CompressedSize = 0 →
        remoteSizeColumn env b =
          env.FormatBytes (addU64 b.BackupMetadata.DataSize b.BackupMetadata.MetadataSize))) := by
  have hm0 : ¬ (mode = "latest" ∨ mode = "last" ∨ mode = "l") :=
    fun h0 => modeLatest_not_all h0 hmode
  have hm1 : ¬ (mode = "penult" ∨ mode = "prev" ∨ mode = "previous" ∨ mode = "p") :=
    fun h0 => modePenult_not_all h0 hmode
  have hm2 : mode = "all" ∨ mode = "" := hmode
  refine ⟨?_, ?_, ?_, ?_⟩
  · unfold printBackupsLocal
    rw [if_neg hm0, if_neg hm1, if_pos hm2]
    refine ⟨rfl, ?_⟩
    simp only
    exact List.map_congr_left (fun b _ => localRow_format env b)
  · intro b
    by_cases hl : b.Legacy = true <;> by_cases hb : b.BackupMetadata.Broken = "" <;>
      by_cases hc : b.BackupMetadata.CompressedSize = 0 <;>
      simp [localSizeColumn, hl, hb, hc, hfmt]
  · unfold printBackupsRemote
    rw [if_neg hm0, if_neg hm1, if_pos hm2]
    refine ⟨rfl, ?_⟩
    simp only
    exact List.map_congr_left (fun b _ => remoteRow_format env b)
  · intro b
    by_cases hb : b.BackupMetadata.Broken = "" <;>
      by_cases hc : b.BackupMetadata.CompressedSize = 0 <;>
      simp [remoteSizeColumn, hb, hc, hfmt]

/-- The demo byte formatter never renders a number as "???": its output ends in
`B`. -/
theorem demoPrintEnv_format_ne (n : Nat) : demoPrintEnv.FormatBytes n ≠ "???" := by
  intro h
  have h2 := congrArg (fun s : String => s.data.getLast?) h
  simp [demoPrintEnv, String.data_append] at h2

/-- Witness of C10: the rows written for the demo catalogs. Locally `monday` (not
compressed) shows `DataSize + MetadataSize`, the legacy `tuesday` shows "???" and
`wednesday` shows `CompressedSize + MetadataSize`; remotely the legacy `monday` shows
a size and the broken `tuesday` shows "???". -/
theorem listing_size_column_witness :
    (printBackupsLocal demoPrintEnv demoLocals "all").written =
      ["monday\t105B\t10\tlocal\t\t\n", "tuesday\t???\t20\tlocal\t\t\n",
       "wednesday\t47B\t30\tlocal\t\t\n"] ∧
    (printBackupsRemote demoPrintEnv demoRemotes "").written =
      ["monday\t105B\t11\tremote\t\told-format\n",
       "tuesday\t???\t21\tremote\t\tno metadata.json\n"] :=
  ⟨(listing_size_column demoPrintEnv demoPrintEnv_format_ne demoLocals demoRemotes "all"
      (by decide)).1.2.trans (by decide),
   (listing_size_column demoPrintEnv demoPrintEnv_format_ne demoLocals demoRemotes ""
      (by decide)).2.2.1.2.trans (by decide)⟩

/-! ## Properties of the folder upload -/

/-- The error slot of the iterator after the items `l` were taken: each failed open
overwrites it. -/
theorem foldl_openError_eq (host : Host) (l : List fileInfo) (init : Option String) :
    l.foldl (fun acc fi => match openError host fi with
      | some e => some e
      | none => acc) init =
      match (l.filterMap (openError host)).getLast? with
      | some e => some e
      | none => init := by
  induction l generalizing init with
  | nil => rfl
  | cons fi l ih =>
    rw [List.foldl_cons, ih]
    cases h : openError host fi with
    | none => simp [List.filterMap_cons, h]
    | some e =>
      simp only [List.filterMap_cons, h]
      cases h2 : (l.filterMap (openError host)).getLast? with
      | none =>
        have : l.filterMap (openError host) = [] := List.getLast?_eq_none_iff.mp h2
        simp [this]
      | some e2 =>
        have : (e :: l.filterMap (openError host)).getLast? = some e2 := by
          cases h3 : l.filterMap (openError host) with
          | nil => simp [h3] at h2
          | cons x xs => rw [List.getLast?_cons_cons, ← h3, h2]
        simp [this]

/-- The upload loop, run with enough fuel on any iterator, returns: the worklist is
empty, every item was handed to `UploadWithContext` in order, the error slot holds
the error of the last failed open (or what it held before), the refused objects are
recorded in order, and the loop reports a batch error exactly when one was refused. -/
theorem uploadWithIterator_spec (host : Host) (put : UploadInput → Option String)
    (l : List fileInfo) :
    ∀ (fuel : Nat) (iter : SyncFolderIterator) (handed : List UploadInput)
      (errs : List S3Error),
      iter.fileInfos = l → l.length < fuel →
      uploadWithIterator host put fuel iter handed errs =
        .ret { iter := { iter with
                 fileInfos := [],
                 err := l.foldl (fun acc fi => match openError host fi with
                   | some e => some e
                   | none => acc) iter.err },
               handed := handed ++ l.map (inputOf host iter.acl iter.bucket iter.s3path),
               errs := errs ++ (l.map (inputOf host iter.acl iter.bucket iter.s3path)).filterMap
                 (objectError put),
               err :=
                 if (errs ++ (l.map (inputOf host iter.acl iter.bucket iter.s3path)).filterMap
                     (objectError put)).length > 0 then
                   some batchUploadIncomplete
                 else none } := by
  induction l with
  | nil =>
    intro fuel iter handed errs hl hfuel
    cases fuel with
    | zero => simp at hfuel
    | succ fuel =>
      cases iter with
      | mk bucket fileInfos err acl s3path =>
        simp only at hl
        subst hl
        simp [uploadWithIterator, SyncFolderIterator.Next]
  | cons fi l ih =>
    intro fuel iter handed errs hl hfuel
    cases fuel with
    | zero => simp at hfuel
    | succ fuel =>
      cases iter with
      | mk bucket fileInfos err acl s3path =>
        simp only at hl
        subst hl
        have hfuel2 : l.length < fuel := by simpa using hfuel
        cases hop : host.Open fi.fullpath with
        | ok f =>
          have hin : inputOf host acl bucket s3path fi =
              { ACL := acl, Bucket := bucket, Key := pathJoin [s3path, fi.key], Body := some f,
                ContentType :=
                  if host.TypeByExtension (Ext fi.key) = "" then "binary/octet-stream"
                  else host.TypeByExtension (Ext fi.key) } := by
            simp [inputOf, hop]
          simp only [uploadWithIterator, SyncFolderIterator.Next,
            SyncFolderIterator.UploadObject, hop, List.length_cons]
          simp only [gt_iff_lt, Nat.zero_lt_succ, decide_True, if_true]
          rw [ih fuel _ _ _ rfl hfuel2]
          rw [List.map_cons, List.filterMap_cons, hin]
          cases hp : uploadWithContext put
              { ACL := acl, Bucket := bucket, Key := pathJoin [s3path, fi.key], Body := some f,
                ContentType :=
                  if host.TypeByExtension (Ext fi.key) = "" then "binary/octet-stream"
                  else host.TypeByExtension (Ext fi.key) } <;>
            simp [objectError, openError, hop, hp]
        | error e =>
          have hin : inputOf host acl bucket s3path fi =
              { ACL := acl, Bucket := bucket, Key := pathJoin [s3path, fi.key], Body := none,
                ContentType :=
                  if host.TypeByExtension (Ext fi.key) = "" then "binary/octet-stream"
                  else host.TypeByExtension (Ext fi.key) } := by
            simp [inputOf, hop]
          simp only [uploadWithIterator, SyncFolderIterator.Next,
            SyncFolderIterator.UploadObject, hop, List.length_cons]
          simp only [gt_iff_lt, Nat.zero_lt_succ, decide_True, if_true]
          rw [ih fuel _ _ _ rfl hfuel2]
          rw [List.map_cons, List.filterMap_cons, hin]
          cases hp : uploadWithContext put
              { ACL := acl, Bucket := bucket, Key := pathJoin [s3path, fi.key], Body := none,
                ContentType :=
                  if host.TypeByExtension (Ext fi.key) = "" then "binary/octet-stream"
                  else host.TypeByExtension (Ext fi.key) } <;>
            simp [objectError, openError, hop, hp]

/-- With no more fuel than items the upload loop does not return: it needs one test
of `Next()` per item and one more to stop. -/
theorem uploadWithIterator_outOfFuel (host : Host) (put : UploadInput → Option String)
    (l : List fileInfo) :
    ∀ (fuel : Nat) (iter : SyncFolderIterator) (handed : List UploadInput)
      (errs : List S3Error),
      iter.fileInfos = l → fuel ≤ l.length →
      uploadWithIterator host put fuel iter handed errs = .outOfFuel := by
  induction l with
  | nil =>
    intro fuel iter handed errs _ hfuel
    have : fuel = 0 := by simpa using hfuel
    subst this
    rfl
  | cons fi l ih =>
    intro fuel iter handed errs hl hfuel
    cases fuel with
    | zero => rfl
    | succ fuel =>
      cases iter with
      | mk bucket fileInfos err acl s3path =>
        simp only at hl
        subst hl
        have hfuel2 : fuel ≤ l.length := by simpa using hfuel
        simp only [uploadWithIterator, SyncFolderIterator.Next,
          SyncFolderIterator.UploadObject, List.length_cons]
        simp only [gt_iff_lt, Nat.zero_lt_succ, decide_True, if_true]
        exact ih fuel _ _ _ (by cases host.Open fi.fullpath <;> rfl) hfuel2

mutual
/-- On a readable tree the walk of `newSyncFolderIterator` reports no error and
appends one item per non-directory entry, in the order of the names. -/
theorem walk_readable (localPath : String) :
    ∀ (node : FsNode) (path : String) (acc : List fileInfo), node.readable = true →
      walk (walkFn localPath) path node acc =
        (acc ++ (node.filePaths path).map
          (fun p => { key := trimPrefix p localPath, fullpath := p }), none)
  | .file, path, acc, _ => by simp [walk, walkFn, FsNode.filePaths]
  | .special, path, acc, _ => by simp [walk, walkFn, FsNode.filePaths]
  | .dir entries, path, acc, h => by
    simp only [walk, walkFn, FsNode.filePaths]
    simp only [Bool.not_true, Bool.false_eq_true, if_false]
    exact walkEntries_readable localPath entries path acc (by simpa [FsNode.readable] using h)
  | .dirUnreadable _, _, _, h => by simp [FsNode.readable] at h
  | .lstatFails _, _, _, h => by simp [FsNode.readable] at h
/-- The same for the entries of a directory. -/
theorem walkEntries_readable (localPath : String) :
    ∀ (entries : FsEntries) (path : String) (acc : List fileInfo), entries.readable = true →
      walkEntries (walkFn localPath) path entries acc =
        (acc ++ (entries.filePaths path).map
          (fun p => { key := trimPrefix p localPath, fullpath := p }), none)
  | .nil, path, acc, _ => by simp [walkEntries, FsEntries.filePaths]
  | .cons name node rest, path, acc, h => by
    have h2 : node.readable = true ∧ rest.readable = true := by
      simpa [FsEntries.readable] using h
    simp only [walkEntries, FsEntries.filePaths]
    rw [walk_readable localPath node _ acc h2.1]
    simp only
    rw [walkEntries_readable localPath rest path _ h2.2]
    simp
end

mutual
/-- On a tree that is not readable the walk of `newSyncFolderIterator` reports an
error. -/
theorem walk_unreadable (localPath : String) :
    ∀ (node : FsNode) (path : String) (acc : List fileInfo), node.readable = false →
      (walk (walkFn localPath) path node acc).2 ≠ none
  | .file, _, _, h => by simp [FsNode.readable] at h
  | .special, _, _, h => by simp [FsNode.readable] at h
  | .dir entries, path, acc, h => by
    simp only [walk, walkFn]
    simp only [Bool.not_true, Bool.false_eq_true, if_false]
    exact walkEntries_unreadable localPath entries path acc (by simpa [FsNode.readable] using h)
  | .dirUnreadable _, _, _, _ => by simp [walk, walkFn]
  | .lstatFails _, _, _, _ => by simp [walk, walkFn]
/-- The same for the entries of a directory. -/
theorem walkEntries_unreadable (localPath : String) :
    ∀ (entries : FsEntries) (path : String) (acc : List fileInfo),
      entries.readable = false →
      (walkEntries (walkFn localPath) path entries acc).2 ≠ none
  | .nil, _, _, h => by simp [FsEntries.readable] at h
  | .cons name node rest, path, acc, h => by
    simp only [walkEntries]
    cases hn : node.readable with
    | false =>
      have := walk_unreadable localPath node (pathJoin [path, name]) acc hn
      cases hw : walk (walkFn localPath) (pathJoin [path, name]) node acc with
      | mk s1 e =>
        cases e with
        | none => simp [hw] at this
        | some e => simp
    | true =>
      have hr : rest.readable = false := by simpa [FsEntries.readable, hn] using h
      rw [walk_readable localPath node _ acc hn]
      simp only
      exact walkEntries_unreadable localPath rest path _ hr
end

/-- C5 (as amended): when a worklist is drained completely through `UploadObject`
and at least one file fails to open, the error returned by `Err()` after the drain is
the error of the last item (in discovery order) whose open failed. -/
theorem drain_err_is_last_open_error (host : Host) (put : UploadInput → Option String)
    (fuel : Nat) (iter : SyncFolderIterator) (hfuel : iter.fileInfos.length < fuel)
    (hfail : ∃ fi ∈ iter.fileInfos, openError host fi ≠ none) :
    ∃ d, uploadWithIterator host put fuel iter [] [] = .ret d ∧
      d.iter.Next = false ∧
      d.iter.Err ≠ none ∧
      d.iter.Err = (iter.fileInfos.filterMap (openError host)).getLast? := by
  refine ⟨_, uploadWithIterator_spec host put iter.fileInfos fuel iter [] [] rfl hfuel, ?_⟩
  obtain ⟨fi, hmem, hne⟩ := hfail
  obtain ⟨e, he⟩ := Option.ne_none_iff_exists.mp hne
  have hne2 : iter.fileInfos.filterMap (openError host) ≠ [] := by
    intro h
    have : e ∈ iter.fileInfos.filterMap (openError host) :=
      List.mem_filterMap.mpr ⟨fi, hmem, he.symm⟩
    rw [h] at this
    simp at this
  have hlast : ∃ e2, (iter.fileInfos.filterMap (openError host)).getLast? = some e2 := by
    cases h : (iter.fileInfos.filterMap (openError host)).getLast? with
    | none => exact (hne2 (List.getLast?_eq_none_iff.mp h)).elim
    | some e2 => exact ⟨e2, rfl⟩
  obtain ⟨e2, he2⟩ := hlast
  simp only [SyncFolderIterator.Next, SyncFolderIterator.Err, foldl_openError_eq, he2]
  simp

/-- Witness of C5 (as amended): on the two-item worklist whose opens both fail, the
error after the drain is the one of the second item. -/
theorem drain_err_is_last_open_error_witness :
    ∃ d, uploadWithIterator demoHostAllDenied demoPut 3
        (newSyncFolderIterator demoS3 demoHostAllDenied "/backup" "dest").1 [] [] = .ret d ∧
      d.iter.Next = false ∧
      d.iter.Err ≠ none ∧
      d.iter.Err =
        ((newSyncFolderIterator demoS3 demoHostAllDenied "/backup" "dest").1.fileInfos.filterMap
          (openError demoHostAllDenied)).getLast? :=
  drain_err_is_last_open_error demoHostAllDenied demoPut 3
    (newSyncFolderIterator demoS3 demoHostAllDenied "/backup" "dest").1 (by decide)
    ⟨{ key := "/a.bin", fullpath := "/backup/a.bin" }, by decide, by decide⟩

/-- C5 (as stated) fails: on the two-item worklist whose opens both fail, the first
failed open reports the error of `/backup/a.bin`, and `Err()` after the drain is the
error of `/backup/b.bin`. -/
theorem drain_err_not_first_counterexample :
    ((newSyncFolderIterator demoS3 demoHostAllDenied "/backup" "dest").1.fileInfos.filterMap
        (openError demoHostAllDenied)).head? =
      some "open /backup/a.bin: permission denied" ∧
    ((uploadWithIterator demoHostAllDenied demoPut 3
        (newSyncFolderIterator demoS3 demoHostAllDenied "/backup" "dest").1 [] []).get?.map
        (fun d => d.iter.Err)) =
      some (some "open /backup/b.bin: permission denied") ∧
    ¬ ((uploadWithIterator demoHostAllDenied demoPut 3
        (newSyncFolderIterator demoS3 demoHostAllDenied "/backup" "dest").1 [] []).get?.map
        (fun d => d.iter.Err)) =
      some (((newSyncFolderIterator demoS3 demoHostAllDenied "/backup" "dest").1.fileInfos.filterMap
        (openError demoHostAllDenied)).head?) := by
  decide


mutual
/-- In a tree whose non-directory entries are all regular files, the non-directory
entries are the regular files. -/
theorem filePaths_eq_regularPaths :
    ∀ (node : FsNode) (path : String), node.onlyRegular = true →
      node.filePaths path = node.regularPaths path
  | .file, _, _ => rfl
  | .special, _, h => by simp [FsNode.onlyRegular] at h
  | .dir entries, path, h => by
    simp only [FsNode.filePaths, FsNode.regularPaths]
    exact entries_filePaths_eq_regularPaths entries path (by simpa [FsNode.onlyRegular] using h)
  | .dirUnreadable _, _, _ => rfl
  | .lstatFails _, _, _ => rfl
/-- The same for the entries of a directory. -/
theorem entries_filePaths_eq_regularPaths :
    ∀ (entries : FsEntries) (path : String), entries.onlyRegular = true →
      entries.filePaths path = entries.regularPaths path
  | .nil, _, _ => rfl
  | .cons name node rest, path, h => by
    have h2 : node.onlyRegular = true ∧ rest.onlyRegular = true := by
      simpa [FsEntries.onlyRegular] using h
    simp only [FsEntries.filePaths, FsEntries.regularPaths]
    rw [filePaths_eq_regularPaths node _ h2.1, entries_filePaths_eq_regularPaths rest path h2.2]
end

/-- When the object store accepts every object that has a body, the objects
`UploadWithIterator` records as failed are the ones of the items whose open failed,
in order, each with the error of the nil body. -/
theorem failed_objects (host : Host) (put : UploadInput → Option String)
    (acl bucket s3path : String) (l : List fileInfo)
    (hput : ∀ fi ∈ l, openError host fi = none →
      put (inputOf host acl bucket s3path fi) = none) :
    (l.map (inputOf host acl bucket s3path)).filterMap (objectError put) =
      (l.filter (fun fi => (openError host fi).isSome)).map
        (fun fi => { OrigErr := nilBodyError, Bucket := bucket,
                     Key := pathJoin [s3path, fi.key] }) := by
  induction l with
  | nil => rfl
  | cons fi l ih =>
    have ih := ih (fun x hx => hput x (List.mem_cons_of_mem _ hx))
    have hhead := hput fi (List.mem_cons_self _ _)
    rw [List.map_cons, List.filterMap_cons, List.filter_cons, ih]
    cases hop : host.Open fi.fullpath with
    | ok f =>
      have hnone : openError host fi = none := by simp [openError, hop]
      have hp := hhead hnone
      have hobj : objectError put (inputOf host acl bucket s3path fi) = none := by
        have hbody : (inputOf host acl bucket s3path fi).Body = some f := by
          simp [inputOf, hop]
        simp [objectError, uploadWithContext, hbody, hp]
      rw [hobj, hnone]
      rfl
    | error e =>
      have hsome : openError host fi = some e := by simp [openError, hop]
      have hobj : objectError put (inputOf host acl bucket s3path fi) =
          some { OrigErr := nilBodyError, Bucket := bucket,
                 Key := pathJoin [s3path, fi.key] } := by
        have hbody : (inputOf host acl bucket s3path fi).Body = none := by
          simp [inputOf, hop]
        simp [objectError, uploadWithContext, inputOf, hop]
      rw [hobj, hsome]
      rfl

/-- C6: on a connected `S3`, when discovery succeeds, dry-run is off and the object
store accepts every object that has a body, `S3.Upload` (run with enough fuel)
returns, and it returns success if and only if no item of the worklist failed to
open. A failed open makes the result the batch error of `UploadWithIterator`
(s3.go line 48), whose failed objects are the keys of the items that did not open.
Whatever the opens did, every item of the worklist was handed to `UploadWithContext`,
in order, and none is left. -/
theorem upload_succeeds_iff_all_open (s3 : S3) (sess : Session) (host : Host)
    (put : UploadInput → Option String) (fuel : Nat) (localPath dstPath : String)
    (hsess : s3.session = some sess)
    (hdry : s3.DryRun = false)
    (hwalk : (newSyncFolderIterator s3 host localPath dstPath).2 = none)
    (hput : ∀ fi ∈ (newSyncFolderIterator s3 host localPath dstPath).1.fileInfos,
      openError host fi = none →
      put (inputOf host s3.Config.ACL s3.Config.Bucket (pathJoin [s3.Config.Path, dstPath]) fi)
        = none)
    (hfuel : (newSyncFolderIterator s3 host localPath dstPath).1.fileInfos.length < fuel) :
    ∃ r, s3.Upload host put fuel localPath dstPath = .ret r ∧
      (r.err = none ↔
        ∀ fi ∈ (newSyncFolderIterator s3 host localPath dstPath).1.fileInfos,
          openError host fi = none) ∧
      ((∃ fi ∈ (newSyncFolderIterator s3 host localPath dstPath).1.fileInfos,
          openError host fi ≠ none) → r.err = some batchUploadIncomplete) ∧
      r.failed.map S3Error.Key =
        ((newSyncFolderIterator s3 host localPath dstPath).1.fileInfos.filter
          (fun fi => (openError host fi).isSome)).map
          (fun fi => pathJoin [pathJoin [s3.Config.Path, dstPath], fi.key]) ∧
      r.transportCalled = true ∧
      r.handed = (newSyncFolderIterator s3 host localPath dstPath).1.fileInfos.map
        (inputOf host s3.Config.ACL s3.Config.Bucket (pathJoin [s3.Config.Path, dstPath])) ∧
      r.handed.length = (newSyncFolderIterator s3 host localPath dstPath).1.fileInfos.length ∧
      r.remaining = [] := by
  have hspec := uploadWithIterator_spec host put
    (newSyncFolderIterator s3 host localPath dstPath).1.fileInfos fuel
    (newSyncFolderIterator s3 host localPath dstPath).1 [] [] rfl hfuel
  have hacl : (newSyncFolderIterator s3 host localPath dstPath).1.acl = s3.Config.ACL := rfl
  have hbucket : (newSyncFolderIterator s3 host localPath dstPath).1.bucket = s3.Config.Bucket :=
    rfl
  have hpath : (newSyncFolderIterator s3 host localPath dstPath).1.s3path =
    pathJoin [s3.Config.Path, dstPath] := rfl
  have herr0 : (newSyncFolderIterator s3 host localPath dstPath).1.err = none := rfl
  rw [hacl, hbucket, hpath, herr0] at hspec
  have hfailed := failed_objects host put s3.Config.ACL s3.Config.Bucket
    (pathJoin [s3.Config.Path, dstPath])
    (newSyncFolderIterator s3 host localPath dstPath).1.fileInfos hput
  rw [hfailed] at hspec
  simp only [List.nil_append] at hspec
  by_cases hall : ∀ fi ∈ (newSyncFolderIterator s3 host localPath dstPath).1.fileInfos,
      openError host fi = none
  · have hfilter : (newSyncFolderIterator s3 host localPath dstPath).1.fileInfos.filter
        (fun fi => (openError host fi).isSome) = [] := by
      rw [List.filter_eq_nil_iff]
      intro fi hfi
      simp [hall fi hfi]
    have hnil : (newSyncFolderIterator s3 host localPath dstPath).1.fileInfos.filterMap
        (openError host) = [] := by
      rw [List.filterMap_eq_nil_iff]; exact hall
    rw [hfilter] at hspec
    simp only [List.map_nil, List.length_nil, gt_iff_lt, lt_self_iff_false, if_false] at hspec
    unfold S3.Upload
    simp only [hsess, hwalk, hdry, hspec]
    refine ⟨_, rfl, ?_, ?_, ?_, rfl, rfl, by simp, rfl⟩
    · simp only [SyncFolderIterator.Err, foldl_openError_eq, hnil]
      exact ⟨fun _ => hall, fun _ => rfl⟩
    · rintro ⟨fi, hfi, hne⟩
      exact absurd (hall fi hfi) hne
    · simp [hfilter]
  · have hex : ∃ fi ∈ (newSyncFolderIterator s3 host localPath dstPath).1.fileInfos,
        openError host fi ≠ none := by
      push_neg at hall
      exact hall
    obtain ⟨fi, hfi, hne⟩ := hex
    have hmem : fi ∈ (newSyncFolderIterator s3 host localPath dstPath).1.fileInfos.filter
        (fun fi => (openError host fi).isSome) := by
      rw [List.mem_filter]
      exact ⟨hfi, by simpa [Option.isSome_iff_ne_none] using hne⟩
    have hpos : 0 < ((newSyncFolderIterator s3 host localPath dstPath).1.fileInfos.filter
        (fun fi => (openError host fi).isSome)).length :=
      List.length_pos_of_mem hmem
    simp only [gt_iff_lt, List.length_map, hpos, if_true] at hspec
    unfold S3.Upload
    simp only [hsess, hwalk, hdry, hspec]
    refine ⟨_, rfl, ?_, ?_, ?_, rfl, rfl, by simp, rfl⟩
    · constructor
      · intro h; cases h
      · intro h; exact absurd (h fi hfi) hne
    · intro _; rfl
    · simp [List.map_map, Function.comp]

/-- Witness of C6: with `b/two.bin` unreadable the upload of the example tree returns
the batch error, records `dest/b/two.bin` as the failed key, and both objects were
handed over. -/
theorem upload_succeeds_iff_all_open_witness :
    ∃ r, demoS3.Upload demoHostDenied demoPut 3 "/var/lib/clickhouse/backup/b1" "dest" = .ret r ∧
      r.err = some batchUploadIncomplete ∧
      r.failed.map S3Error.Key = ["dest/b/two.bin"] ∧
      r.handed.map UploadInput.Key = ["dest/a/one.txt", "dest/b/two.bin"] ∧
      r.remaining = [] := by
  obtain ⟨r, hr, _, herr, hfailed, _, hhanded, _, hrem⟩ :=
    upload_succeeds_iff_all_open demoS3
      { AccessKey := "key", SecretKey := "secret", Region := "us-east-1", Endpoint := "",
        DisableSSL := false, S3ForcePathStyle := false }
      demoHostDenied demoPut 3
      "/var/lib/clickhouse/backup/b1" "dest" rfl rfl (by decide) (fun _ _ _ => rfl) (by decide)
  refine ⟨r, hr, ?_, ?_, ?_, hrem⟩
  · exact herr ⟨{ key := "/b/two.bin", fullpath := "/var/lib/clickhouse/backup/b1/b/two.bin" },
      by decide, by decide⟩
  · rw [hfailed]; decide
  · rw [hhanded]; decide

/-- C7: on the worklist of `n` items built by `newSyncFolderIterator`, the loop
"while `Next()`, call `UploadObject()`" returns after exactly `n` calls (it needs
`n + 1` tests of `Next()`, and no fewer), never takes an item from an empty worklist,
and emits for each item, in discovery order and once, the key
`path.Join(path.Join(Config.Path, dstPath), key)`. For the tree with the files
`a/one.txt` and `b/two.bin` the keys are `dest/a/one.txt` then `dest/b/two.bin`. -/
theorem drain_emits_keys_in_order (s3 : S3) (host : Host)
    (put : UploadInput → Option String) (localPath dstPath : String) :
    (∃ d, uploadWithIterator host put
        ((newSyncFolderIterator s3 host localPath dstPath).1.fileInfos.length + 1)
        (newSyncFolderIterator s3 host localPath dstPath).1 [] [] = .ret d ∧
      d.handed.length = (newSyncFolderIterator s3 host localPath dstPath).1.fileInfos.length ∧
      d.handed.map UploadInput.Key =
        (newSyncFolderIterator s3 host localPath dstPath).1.fileInfos.map
          (fun fi => pathJoin [pathJoin [s3.Config.Path, dstPath], fi.key]) ∧
      d.iter.Next = false) ∧
    (∀ fuel, fuel ≤ (newSyncFolderIterator s3 host localPath dstPath).1.fileInfos.length →
      uploadWithIterator host put fuel
        (newSyncFolderIterator s3 host localPath dstPath).1 [] [] = .outOfFuel) ∧
    (∀ fuel, uploadWithIterator host put fuel
        (newSyncFolderIterator s3 host localPath dstPath).1 [] [] ≠ .panic) ∧
    (newSyncFolderIterator demoS3 demoHost "/var/lib/clickhouse/backup/b1" "dest").1.fileInfos =
      [{ key := "/a/one.txt", fullpath := "/var/lib/clickhouse/backup/b1/a/one.txt" },
       { key := "/b/two.bin", fullpath := "/var/lib/clickhouse/backup/b1/b/two.bin" }] ∧
    (uploadWithIterator demoHost demoPut 3
        (newSyncFolderIterator demoS3 demoHost "/var/lib/clickhouse/backup/b1" "dest").1
        [] []).get?.map (fun d => d.handed.map UploadInput.Key) =
      some ["dest/a/one.txt", "dest/b/two.bin"] := by
  have hspec := uploadWithIterator_spec host put
    (newSyncFolderIterator s3 host localPath dstPath).1.fileInfos
  refine ⟨⟨_, hspec _ _ [] [] rfl (Nat.lt_succ_self _), ?_, ?_, ?_⟩, ?_, ?_, by decide,
    by decide⟩
  · simp
  · simp only [List.nil_append, List.map_map]
    rfl
  · simp [SyncFolderIterator.Next]
  · intro fuel hfuel
    exact uploadWithIterator_outOfFuel host put _ fuel _ [] [] rfl hfuel
  · intro fuel
    by_cases hfuel : (newSyncFolderIterator s3 host localPath dstPath).1.fileInfos.length < fuel
    · rw [hspec fuel _ [] [] rfl hfuel]
      simp
    · rw [uploadWithIterator_outOfFuel host put _ fuel _ [] [] rfl (by omega)]
      simp


/-- C9 (as amended): on a connected `S3` with `DryRun` set and a successful walk,
`S3.Upload` returns success without calling `UploadWithIterator`: nothing is handed
to the transport and every item of the discovered worklist is left unconsumed. On a
readable tree the walk succeeds and the worklist holds one item per entry of the tree
that is not a directory (regular files, and also symbolic links and other special
files); these are the regular files when the tree holds no special file. When the
walk reports an error, `S3.Upload` returns that error and hands nothing to the
transport, with `DryRun` set or not; a tree that is not readable makes the walk
report an error. No fuel is needed on either path. -/
theorem upload_dry_run_and_walk_error (s3 : S3) (sess : Session) (host : Host)
    (put : UploadInput → Option String) (fuel : Nat) (localPath dstPath : String)
    (hsess : s3.session = some sess) :
    (s3.DryRun = true → (newSyncFolderIterator s3 host localPath dstPath).2 = none →
      ∃ r, s3.Upload host put fuel localPath dstPath = .ret r ∧ r.err = none ∧
        r.transportCalled = false ∧ r.handed = [] ∧
        r.discovered = (newSyncFolderIterator s3 host localPath dstPath).1.fileInfos ∧
        r.remaining = r.discovered ∧
        r.log = ["Ready for upload " ++ toString r.discovered.length ++ " files",
          "... skip because dry-dun"]) ∧
    ((host.tree localPath).readable = true →
      (newSyncFolderIterator s3 host localPath dstPath).2 = none ∧
      (newSyncFolderIterator s3 host localPath dstPath).1.fileInfos.map fileInfo.fullpath =
        (host.tree localPath).filePaths localPath ∧
      (newSyncFolderIterator s3 host localPath dstPath).1.fileInfos.length =
        ((host.tree localPath).filePaths localPath).length ∧
      ((host.tree localPath).onlyRegular = true →
        (newSyncFolderIterator s3 host localPath dstPath).1.fileInfos.map fileInfo.fullpath =
          (host.tree localPath).regularPaths localPath)) ∧
    (∀ e, (newSyncFolderIterator s3 host localPath dstPath).2 = some e →
      ∃ r, s3.Upload host put fuel localPath dstPath = .ret r ∧ r.err = some e ∧
        r.transportCalled = false ∧ r.handed = []) ∧
    ((host.tree localPath).readable = false →
      (newSyncFolderIterator s3 host localPath dstPath).2 ≠ none) := by
  refine ⟨?_, ?_, ?_, ?_⟩
  · intro hdry hwalk
    unfold S3.Upload
    simp only [hsess, hwalk, hdry, if_true]
    exact ⟨_, rfl, rfl, rfl, rfl, rfl, rfl, rfl⟩
  · intro hread
    have hw := walk_readable localPath (host.tree localPath) localPath [] hread
    have hpaths : (newSyncFolderIterator s3 host localPath dstPath).1.fileInfos.map
        fileInfo.fullpath = (host.tree localPath).filePaths localPath := by
      simp only [newSyncFolderIterator, hw, List.nil_append, List.map_map]
      exact List.map_id _
    refine ⟨?_, hpaths, ?_, ?_⟩
    · simp only [newSyncFolderIterator, hw]
    · rw [← hpaths, List.length_map]
    · intro hreg
      rw [hpaths]
      exact filePaths_eq_regularPaths (host.tree localPath) localPath hreg
  · intro e hwalk
    unfold S3.Upload
    simp only [hsess, hwalk]
    exact ⟨_, rfl, rfl, rfl, rfl⟩
  · intro hread
    exact walk_unreadable localPath (host.tree localPath) localPath [] hread

/-- Witness of C9 (as amended): a dry run over the example tree discovers two files
and hands nothing to the transport; when the directory `b` cannot be read the upload
returns the error of the walk. -/
theorem upload_dry_run_and_walk_error_witness :
    (∃ r, demoS3DryRun.Upload demoHost demoPut 0
        "/var/lib/clickhouse/backup/b1" "dest" = .ret r ∧ r.err = none ∧
      r.transportCalled = false ∧ r.handed = [] ∧
      r.discovered = (newSyncFolderIterator demoS3DryRun demoHost
        "/var/lib/clickhouse/backup/b1" "dest").1.fileInfos ∧
      r.remaining = r.discovered ∧
      r.log = ["Ready for upload " ++ toString r.discovered.length ++ " files",
        "... skip because dry-dun"]) ∧
    (∃ r, demoS3.Upload demoHostWalkFails demoPut 0 "/var/lib/clickhouse/backup/b1" "dest" =
        .ret r ∧ r.err = some "open b: permission denied" ∧
      r.transportCalled = false ∧ r.handed = []) :=
  ⟨(upload_dry_run_and_walk_error demoS3DryRun
      { AccessKey := "key", SecretKey := "secret", Region := "us-east-1", Endpoint := "",
        DisableSSL := false, S3ForcePathStyle := false }
      demoHost demoPut 0 "/var/lib/clickhouse/backup/b1" "dest" rfl).1 rfl (by decide),
   (upload_dry_run_and_walk_error demoS3
      { AccessKey := "key", SecretKey := "secret", Region := "us-east-1", Endpoint := "",
        DisableSSL := false, S3ForcePathStyle := false }
      demoHostWalkFails demoPut 0 "/var/lib/clickhouse/backup/b1" "dest" rfl).2.2.1
      "open b: permission denied" (by decide)⟩

/-- C9 (as stated) fails: a dry run over the directory that holds the symbolic link
`current` and the regular file `one.txt` succeeds with a worklist of two items, one
of them for the link, while the tree has one regular file. -/
theorem upload_worklist_not_regular_counterexample :
    (demoS3DryRun.Upload demoHostWithLink demoPut 0 "/backup" "dest").get?.map
        (fun r => (r.err, r.discovered.map fileInfo.fullpath)) =
      some (none, ["/backup/current", "/backup/one.txt"]) ∧
    (demoHostWithLink.tree "/backup").regularPaths "/backup" = ["/backup/one.txt"] ∧
    ¬ (demoS3DryRun.Upload demoHostWithLink demoPut 0 "/backup" "dest").get?.map
        (fun r => r.discovered.map fileInfo.fullpath) =
      some ((demoHostWithLink.tree "/backup").regularPaths "/backup") := by
  decide

/-! ## Properties of `sort.SliceStable` as used by the scan -/

theorem insertBack_perm {α : Type} (less : α → α → Bool) (x : α) (l : List α) :
    (insertBack less x l).Perm (x :: l) := by
  induction l with
  | nil => exact List.Perm.refl _
  | cons p rest ih =>
    unfold insertBack
    split
    · exact (ih.cons p).trans (List.Perm.swap x p rest)
    · exact List.Perm.refl _

theorem foldl_insertBack_perm {α : Type} (less : α → α → Bool) (l acc : List α) :
    (l.foldl (fun sortedRev x => insertBack less x sortedRev) acc).Perm (l ++ acc) := by
  induction l generalizing acc with
  | nil => exact List.Perm.refl _
  | cons x l ih =>
    rw [List.foldl_cons]
    refine (ih _).trans ?_
    refine (List.Perm.append_left l (insertBack_perm less x acc)).trans ?_
    rw [List.cons_append]
    exact List.perm_middle

theorem sliceStable_perm {α : Type} (less : α → α → Bool) (l : List α) :
    (sliceStable less l).Perm l := by
  unfold sliceStable
  refine (List.reverse_perm _).trans ?_
  simpa using foldl_insertBack_perm less l []

theorem insertBack_sorted {α : Type} (key : α → Int) (x : α) (l : List α)
    (h : l.Pairwise (fun a b => key b ≤ key a)) :
    (insertBack (fun a b => decide (key a < key b)) x l).Pairwise
      (fun a b => key b ≤ key a) := by
  induction l with
  | nil => simp [insertBack]
  | cons p rest ih =>
    rw [List.pairwise_cons] at h
    unfold insertBack
    by_cases hlt : key x < key p
    · simp only [hlt, decide_True, if_true]
      rw [List.pairwise_cons]
      refine ⟨?_, ih h.2⟩
      intro y hy
      rcases List.mem_cons.mp ((List.Perm.mem_iff (insertBack_perm _ x rest)).mp hy) with hy | hy
      · subst hy; exact le_of_lt hlt
      · exact h.1 y hy
    · simp only [hlt, decide_False, Bool.false_eq_true, if_false]
      rw [List.pairwise_cons, List.pairwise_cons]
      refine ⟨?_, h.1, h.2⟩
      intro y hy
      rcases List.mem_cons.mp hy with hy | hy
      · subst hy; exact not_lt.mp hlt
      · exact le_trans (h.1 y hy) (not_lt.mp hlt)

theorem foldl_insertBack_sorted {α : Type} (key : α → Int) (l acc : List α)
    (h : acc.Pairwise (fun a b => key b ≤ key a)) :
    (l.foldl (fun sortedRev x => insertBack (fun a b => decide (key a < key b)) x sortedRev)
      acc).Pairwise (fun a b => key b ≤ key a) := by
  induction l generalizing acc with
  | nil => exact h
  | cons x l ih =>
    rw [List.foldl_cons]
    exact ih _ (insertBack_sorted key x acc h)

theorem sliceStable_sorted {α : Type} (key : α → Int) (l : List α) :
    (sliceStable (fun a b => decide (key a < key b)) l).Pairwise
      (fun a b => key a ≤ key b) := by
  unfold sliceStable
  rw [List.pairwise_reverse]
  exact foldl_insertBack_sorted key l [] List.Pairwise.nil

theorem insertBack_filter {α : Type} (key : α → Int) (t : Int) (x : α) (l : List α) :
    (insertBack (fun a b => decide (key a < key b)) x l).filter (fun a => decide (key a = t)) =
      if key x = t then x :: l.filter (fun a => decide (key a = t))
      else l.filter (fun a => decide (key a = t)) := by
  induction l with
  | nil => by_cases hx : key x = t <;> simp [insertBack, hx]
  | cons p rest ih =>
    unfold insertBack
    by_cases hlt : key x < key p
    · simp only [hlt, decide_True, if_true]
      rw [List.filter_cons, ih]
      by_cases hx : key x = t
      · have hp : ¬ key p = t := by omega
        simp [hx, hp]
      · simp [hx, List.filter_cons]
    · simp only [hlt, decide_False, Bool.false_eq_true, if_false]
      by_cases hx : key x = t <;> simp [List.filter_cons, hx]

theorem foldl_insertBack_filter {α : Type} (key : α → Int) (t : Int) (l acc : List α) :
    (l.foldl (fun sortedRev x => insertBack (fun a b => decide (key a < key b)) x sortedRev)
      acc).filter (fun a => decide (key a = t)) =
      (l.filter (fun a => decide (key a = t))).reverse ++
        acc.filter (fun a => decide (key a = t)) := by
  induction l generalizing acc with
  | nil => simp
  | cons x l ih =>
    rw [List.foldl_cons, ih, insertBack_filter]
    by_cases hx : key x = t <;> simp [List.filter_cons, hx]

theorem sliceStable_stable {α : Type} (key : α → Int) (t : Int) (l : List α) :
    (sliceStable (fun a b => decide (key a < key b)) l).filter (fun a => decide (key a = t)) =
      l.filter (fun a => decide (key a = t)) := by
  unfold sliceStable
  rw [List.filter_reverse, foldl_insertBack_filter]
  simp

/-! ## Properties of the local scan -/

/-- The loop of the scan, when it ends without error, has appended the records of the
backup directories among the names, in the order of the names. -/
theorem scanNames_ok (env : LocalEnv) (backupsPath : String) (names : List String) :
    ∀ (acc result : List BackupLocal), scanNames env backupsPath names acc = .ok result →
      result = acc ++ discovered env backupsPath names := by
  induction names with
  | nil =>
    intro acc result h
    simp only [scanNames, Except.ok.injEq] at h
    simp [discovered, h]
  | cons name names ih =>
    intro acc result h
    unfold scanNames at h
    unfold discovered
    rw [List.filterMap_cons]
    cases hst : env.Stat (pathJoin [backupsPath, name]) with
    | error e =>
      rw [hst] at h
      simp only at h
      have := ih acc result h
      simp [recordOf, isBackupDir, hst, this, discovered]
    | ok info =>
      rw [hst] at h
      simp only at h
      cases hdir : info.IsDir with
      | false =>
        simp only [hdir, Bool.not_false, if_true] at h
        have := ih acc result h
        simp [recordOf, isBackupDir, hst, hdir, this, discovered]
      | true =>
        simp only [hdir, Bool.not_true, Bool.false_eq_true, if_false] at h
        cases hrd : env.ReadFile (pathJoin [backupsPath, name, "metadata.json"]) with
        | notExist e =>
          rw [hrd] at h
          simp only at h
          have := ih _ result h
          simp [recordOf, isBackupDir, loadBackup, hst, hdir, hrd, this, discovered]
        | failed e partialBody =>
          rw [hrd] at h
          simp only at h
          cases hun : env.Unmarshal partialBody with
          | error e2 => rw [hun] at h; simp at h
          | ok m =>
            rw [hun] at h
            simp only at h
            have := ih _ result h
            simp [recordOf, isBackupDir, loadBackup, hst, hdir, hrd, hun, this, discovered]
        | body b =>
          rw [hrd] at h
          simp only at h
          cases hun : env.Unmarshal b with
          | error e2 => rw [hun] at h; simp at h
          | ok m =>
            rw [hun] at h
            simp only at h
            have := ih _ result h
            simp [recordOf, isBackupDir, loadBackup, hst, hdir, hrd, hun, this, discovered]

/-- The loop of the scan ends without error when the record of every backup directory
among the names loads. -/
theorem scanNames_succeeds (env : LocalEnv) (backupsPath : String) (names : List String) :
    ∀ (acc : List BackupLocal),
      (∀ name ∈ names, isBackupDir env backupsPath name = true →
        ∃ b, loadBackup env backupsPath name = .ok b) →
      ∃ result, scanNames env backupsPath names acc = .ok result := by
  induction names with
  | nil => intro acc _; exact ⟨acc, rfl⟩
  | cons name names ih =>
    intro acc hload
    have hrest : ∀ n ∈ names, isBackupDir env backupsPath n = true →
        ∃ b, loadBackup env backupsPath n = .ok b :=
      fun n hn => hload n (List.mem_cons_of_mem _ hn)
    have hhead := hload name (List.mem_cons_self _ _)
    unfold scanNames
    cases hst : env.Stat (pathJoin [backupsPath, name]) with
    | error e => exact ih acc hrest
    | ok info =>
      simp only
      cases hdir : info.IsDir with
      | false => simpa using ih acc hrest
      | true =>
        simp only [Bool.not_true, Bool.false_eq_true, if_false]
        have hb : isBackupDir env backupsPath name = true := by simp [isBackupDir, hst, hdir]
        obtain ⟨b, hb2⟩ := hhead hb
        unfold loadBackup at hb2
        cases hrd : env.ReadFile (pathJoin [backupsPath, name, "metadata.json"]) with
        | notExist e => exact ih _ hrest
        | failed e partialBody =>
          rw [hrd] at hb2
          simp only at hb2
          cases hun : env.Unmarshal partialBody with
          | error e2 => rw [hun] at hb2; simp at hb2
          | ok m => simp only [hun]; exact ih _ hrest
        | body bd =>
          rw [hrd] at hb2
          simp only at hb2
          cases hun : env.Unmarshal bd with
          | error e2 => rw [hun] at hb2; simp at hb2
          | ok m => simp only [hun]; exact ih _ hrest

/-- When every backup directory among the names loads, the discovered records are the
records of the backup directories, one per directory and in the same order. -/
theorem discovered_eq_loaded (env : LocalEnv) (backupsPath : String) (names : List String)
    (hload : ∀ name ∈ names, isBackupDir env backupsPath name = true →
      ∃ b, loadBackup env backupsPath name = .ok b) :
    (discovered env backupsPath names).map Except.ok =
      (names.filter (isBackupDir env backupsPath)).map (loadBackup env backupsPath) := by
  induction names with
  | nil => rfl
  | cons name names ih =>
    have hrest := ih (fun n hn => hload n (List.mem_cons_of_mem _ hn))
    unfold discovered at hrest ⊢
    rw [List.filterMap_cons, List.filter_cons]
    cases hdir : isBackupDir env backupsPath name with
    | false => simpa [recordOf, hdir] using hrest
    | true =>
      obtain ⟨b, hb⟩ := hload name (List.mem_cons_self _ _) hdir
      simp [recordOf, hdir, hb, hrest]

/-- A successful `scanBackups` returns the stable sort of the discovered records of
the names listed under the backups path (no names when the path does not exist). -/
theorem scanBackups_ok (env : LocalEnv) (ds : List Disk) (ws : List String)
    (catalog : List BackupLocal) (hb : (scanBackups env ds ws).backups = some catalog)
    (he : (scanBackups env ds ws).err = none) :
    ∃ backupsPath names,
      (env.Open backupsPath = .opened names ∨ names = []) ∧
      catalog = sliceStable createdBefore (discovered env backupsPath names) := by
  unfold scanBackups at hb he
  cases hp : env.GetDefaultPath ds with
  | error e => rw [hp] at he; simp at he
  | ok dataPath =>
    rw [hp] at hb he
    simp only at hb he
    cases ho : env.Open (pathJoin [dataPath, "backup"]) with
    | notExist e =>
      rw [ho] at hb
      simp only [Option.some.injEq] at hb
      exact ⟨pathJoin [dataPath, "backup"], [], Or.inr rfl, by rw [← hb]; rfl⟩
    | failed e => rw [ho] at he; simp at he
    | readdirFailed e => rw [ho] at he; simp at he
    | opened names =>
      rw [ho] at hb he
      simp only at hb he
      cases hs : scanNames env (pathJoin [dataPath, "backup"]) names [] with
      | error e => rw [hs] at he; simp at he
      | ok result =>
        rw [hs] at hb
        simp only [Option.some.injEq] at hb
        have := scanNames_ok env _ names [] result hs
        simp only [List.nil_append] at this
        exact ⟨pathJoin [dataPath, "backup"], names, Or.inl ho, by rw [← hb, this]⟩

/-- A successful `GetLocalBackups` returns the stable sort of the discovered records. -/
theorem getLocalBackups_ok (env : LocalEnv) (disks : Option (List Disk))
    (catalog : List BackupLocal) (hb : (GetLocalBackups env disks).backups = some catalog)
    (he : (GetLocalBackups env disks).err = none) :
    ∃ backupsPath names,
      (env.Open backupsPath = .opened names ∨ names = []) ∧
      catalog = sliceStable createdBefore (discovered env backupsPath names) := by
  unfold GetLocalBackups at hb he
  cases disks with
  | some ds => exact scanBackups_ok env ds _ catalog hb he
  | none =>
    cases hc : env.Connect with
    | some e =>
      rw [hc] at hb he
      exact scanBackups_ok env _ _ catalog hb he
    | none =>
      rw [hc] at hb he
      simp only at hb he
      cases hg : env.GetDisks with
      | error e => rw [hg] at he; simp at he
      | ok ds =>
        rw [hg] at hb he
        exact scanBackups_ok env ds _ catalog hb he

/-- C4: when the disks resolve, the data path resolves, the backups directory lists
`names` and the metadata of every backup directory among them loads,
`GetLocalBackups` returns a catalog that holds the record of each backup directory
exactly once (it is a permutation of the records accumulated in discovery order, one
per directory), is sorted non-decreasing by `CreationDate`, and keeps records with
equal `CreationDate` in discovery order. -/
theorem getLocalBackups_sorted_stable_perm (env : LocalEnv) (disks : Option (List Disk))
    (ds : List Disk) (dataPath : String) (names : List String)
    (hdisks : resolvedDisks env disks = .ok ds)
    (hpath : env.GetDefaultPath ds = .ok dataPath)
    (hopen : env.Open (pathJoin [dataPath, "backup"]) = .opened names)
    (hload : ∀ name ∈ names, isBackupDir env (pathJoin [dataPath, "backup"]) name = true →
      ∃ b, loadBackup env (pathJoin [dataPath, "backup"]) name = .ok b) :
    ∃ catalog, (GetLocalBackups env disks).backups = some catalog ∧
      (GetLocalBackups env disks).err = none ∧
      catalog.Perm (discovered env (pathJoin [dataPath, "backup"]) names) ∧
      (discovered env (pathJoin [dataPath, "backup"]) names).map Except.ok =
        (names.filter (isBackupDir env (pathJoin [dataPath, "backup"]))).map
          (loadBackup env (pathJoin [dataPath, "backup"])) ∧
      catalog.length = (names.filter (isBackupDir env (pathJoin [dataPath, "backup"]))).length ∧
      catalog.Pairwise
        (fun a b => a.BackupMetadata.CreationDate ≤ b.BackupMetadata.CreationDate) ∧
      ∀ t : Int, catalog.filter (fun b => decide (b.BackupMetadata.CreationDate = t)) =
        (discovered env (pathJoin [dataPath, "backup"]) names).filter
          (fun b => decide (b.BackupMetadata.CreationDate = t)) := by
  obtain ⟨result, hres⟩ := scanNames_succeeds env (pathJoin [dataPath, "backup"]) names [] hload
  have hdisc := scanNames_ok env _ names [] result hres
  simp only [List.nil_append] at hdisc
  have hscan : ∀ ws, scanBackups env ds ws =
      { backups := some (sliceStable createdBefore
          (discovered env (pathJoin [dataPath, "backup"]) names)),
        disks := some ds, err := none, warnings := ws } := by
    intro ws
    unfold scanBackups
    simp only [hpath, hopen, hres, hdisc]
  have hget : ∃ ws, GetLocalBackups env disks = scanBackups env ds ws := by
    unfold GetLocalBackups
    unfold resolvedDisks at hdisks
    cases disks with
    | some ds0 =>
      simp only [Except.ok.injEq] at hdisks
      subst hdisks
      exact ⟨_, rfl⟩
    | none =>
      cases hc : env.Connect with
      | some e =>
        rw [hc] at hdisks
        simp only [Except.ok.injEq] at hdisks
        subst hdisks
        exact ⟨_, rfl⟩
      | none =>
        rw [hc] at hdisks
        simp only at hdisks
        simp only [hdisks]
        exact ⟨_, rfl⟩
  obtain ⟨ws, hws⟩ := hget
  have hloaded := discovered_eq_loaded env _ names hload
  have hperm := sliceStable_perm createdBefore
    (discovered env (pathJoin [dataPath, "backup"]) names)
  refine ⟨_, by rw [hws, hscan], by rw [hws, hscan], hperm, hloaded, ?_, ?_, ?_⟩
  · rw [hperm.length_eq]
    have := congrArg List.length hloaded
    simpa using this
  · exact sliceStable_sorted (fun b : BackupLocal => b.BackupMetadata.CreationDate) _
  · intro t
    exact sliceStable_stable (fun b : BackupLocal => b.BackupMetadata.CreationDate) t _

/-- Witness of C4: the scan of the demo data root returns the legacy `b1` (instant
10), then `b2` and `b3` (both instant 20) in the order they were discovered. -/
theorem getLocalBackups_sorted_stable_perm_witness :
    ∃ catalog, (GetLocalBackups demoLocalEnv none).backups = some catalog ∧
      (GetLocalBackups demoLocalEnv none).err = none ∧
      catalog.Perm (discovered demoLocalEnv (pathJoin ["/var/lib/clickhouse", "backup"])
        ["b2", "b1", "notes.txt", "b3"]) ∧
      (discovered demoLocalEnv (pathJoin ["/var/lib/clickhouse", "backup"])
          ["b2", "b1", "notes.txt", "b3"]).map Except.ok =
        (["b2", "b1", "notes.txt", "b3"].filter
          (isBackupDir demoLocalEnv (pathJoin ["/var/lib/clickhouse", "backup"]))).map
          (loadBackup demoLocalEnv (pathJoin ["/var/lib/clickhouse", "backup"])) ∧
      catalog.length = (["b2", "b1", "notes.txt", "b3"].filter
        (isBackupDir demoLocalEnv (pathJoin ["/var/lib/clickhouse", "backup"]))).length ∧
      catalog.Pairwise
        (fun a b => a.BackupMetadata.CreationDate ≤ b.BackupMetadata.CreationDate) ∧
      ∀ t : Int, catalog.filter (fun b => decide (b.BackupMetadata.CreationDate = t)) =
        (discovered demoLocalEnv (pathJoin ["/var/lib/clickhouse", "backup"])
          ["b2", "b1", "notes.txt", "b3"]).filter
          (fun b => decide (b.BackupMetadata.CreationDate = t)) :=
  getLocalBackups_sorted_stable_perm demoLocalEnv none
    [{ Name := "default", Path := "/var/lib/clickhouse" }] "/var/lib/clickhouse"
    ["b2", "b1", "notes.txt", "b3"] rfl rfl (by decide)
    (by
      intro name hmem hdir
      simp only [List.mem_cons, List.mem_singleton, List.not_mem_nil, or_false] at hmem
      rcases hmem with rfl | rfl | rfl | rfl
      · exact ⟨_, rfl⟩
      · exact ⟨_, rfl⟩
      · exact absurd hdir (by decide)
      · exact ⟨_, rfl⟩)

/-- When every loaded record carries the name of its directory, the names of the
discovered records are the names of the directories they come from. -/
theorem discovered_names (env : LocalEnv) (backupsPath : String) (names : List String)
    (hname : ∀ name ∈ names, ∀ b, loadBackup env backupsPath name = .ok b →
      b.BackupMetadata.BackupName = name) :
    (discovered env backupsPath names).map (fun b => b.BackupMetadata.BackupName) =
      names.filter (fun n => (recordOf env backupsPath n).isSome) := by
  induction names with
  | nil => rfl
  | cons name names ih =>
    have ih := ih (fun n hn => hname n (List.mem_cons_of_mem _ hn))
    unfold discovered at ih ⊢
    rw [List.filterMap_cons, List.filter_cons]
    cases hrec : recordOf env backupsPath name with
    | none => simpa using ih
    | some b =>
      have hb : loadBackup env backupsPath name = .ok b := by
        unfold recordOf at hrec
        split at hrec
        · split at hrec
          · rename_i b2 hb2
            simp only [Option.some.injEq] at hrec
            rw [hb2, hrec]
          · simp at hrec
        · simp at hrec
      simp only [Option.isSome_some, if_true, List.map_cons, ih,
        hname name (List.mem_cons_self _ _) b hb]

/-- In a list sorted by a key, every element at a position other than the last is at
most the element at the position before the last, which is at most the last. -/
theorem sorted_tail_maximal {α : Type} (key : α → Int) (l : List α)
    (hs : l.Pairwise (fun a b => key a ≤ key b)) (h2 : 2 ≤ l.length) :
    (∀ b ∈ l, key b ≤ key (l.get ⟨l.length - 1, by omega⟩)) ∧
    (∀ i (hi : i < l.length), i ≠ l.length - 1 →
      key (l.get ⟨i, hi⟩) ≤ key (l.get ⟨l.length - 2, by omega⟩)) := by
  rw [List.pairwise_iff_get] at hs
  constructor
  · intro b hb
    obtain ⟨i, hi⟩ := List.mem_iff_get.mp hb
    rw [← hi]
    by_cases h : i.val = l.length - 1
    · have : i = ⟨l.length - 1, by omega⟩ := Fin.ext h
      rw [this]
    · exact hs i ⟨l.length - 1, by omega⟩ (by
        have := i.isLt
        simp only [Fin.lt_def]
        omega)
  · intro i hi hne
    by_cases h : i = l.length - 2
    · subst h; exact le_refl _
    · exact hs ⟨i, hi⟩ ⟨l.length - 2, by omega⟩ (by
        simp only [Fin.lt_def]
        omega)

/-- C3 (as amended): in a catalog of at least two entries returned by
`GetLocalBackups`, the entry printed for "latest" has the maximal `CreationDate` of
the catalog and the entry printed for "penult" has the maximal `CreationDate` among
the entries other than the latest one; the two printed names are different when the
directory listing holds no name twice and every loaded record carries the name of its
directory (as every legacy record does). -/
theorem latest_penult_of_scanned_catalog (env : LocalEnv) (penv : PrintEnv)
    (disks : Option (List Disk)) (catalog : List BackupLocal)
    (hb : (GetLocalBackups env disks).backups = some catalog)
    (he : (GetLocalBackups env disks).err = none) (h2 : 2 ≤ catalog.length) :
    (printBackupsLocal penv catalog "latest").stdout =
      [(catalog.get ⟨catalog.length - 1, by omega⟩).BackupMetadata.BackupName] ∧
    (∀ b ∈ catalog, b.BackupMetadata.CreationDate ≤
      (catalog.get ⟨catalog.length - 1, by omega⟩).BackupMetadata.CreationDate) ∧
    (printBackupsLocal penv catalog "penult").stdout =
      [(catalog.get ⟨catalog.length - 2, by omega⟩).BackupMetadata.BackupName] ∧
    (∀ i (hi : i < catalog.length), i ≠ catalog.length - 1 →
      (catalog.get ⟨i, hi⟩).BackupMetadata.CreationDate ≤
        (catalog.get ⟨catalog.length - 2, by omega⟩).BackupMetadata.CreationDate) ∧
    ((∀ backupsPath names, env.Open backupsPath = .opened names →
        names.Nodup ∧ ∀ name ∈ names, ∀ b, loadBackup env backupsPath name = .ok b →
          b.BackupMetadata.BackupName = name) →
      (catalog.get ⟨catalog.length - 1, by omega⟩).BackupMetadata.BackupName ≠
        (catalog.get ⟨catalog.length - 2, by omega⟩).BackupMetadata.BackupName) := by
  obtain ⟨backupsPath, names, hopen, hcat⟩ := getLocalBackups_ok env disks catalog hb he
  have hsorted : catalog.Pairwise
      (fun a b => a.BackupMetadata.CreationDate ≤ b.BackupMetadata.CreationDate) := by
    rw [hcat]
    exact sliceStable_sorted (fun b : BackupLocal => b.BackupMetadata.CreationDate) _
  have hmax := sorted_tail_maximal (fun b : BackupLocal => b.BackupMetadata.CreationDate)
    catalog hsorted h2
  have h1 : ¬ catalog.length < 1 := by omega
  have h2n : ¬ catalog.length < 2 := by omega
  refine ⟨?_, hmax.1, ?_, hmax.2, ?_⟩
  · unfold printBackupsLocal
    rw [if_pos (Or.inl rfl), dif_neg h1]
  · unfold printBackupsLocal
    rw [if_neg (by decide), if_pos (Or.inl rfl), dif_neg h2n]
  · intro hdir
    have hnames : names.Nodup ∧ ∀ name ∈ names, ∀ b,
        loadBackup env backupsPath name = .ok b → b.BackupMetadata.BackupName = name := by
      rcases hopen with ho | ho
      · exact hdir backupsPath names ho
      · rw [ho]; exact ⟨List.nodup_nil, fun _ h => absurd h (List.not_mem_nil _)⟩
    have hdn : ((discovered env backupsPath names).map
        (fun b => b.BackupMetadata.BackupName)).Nodup := by
      rw [discovered_names env backupsPath names hnames.2]
      exact hnames.1.filter _
    have hperm : (catalog.map (fun b => b.BackupMetadata.BackupName)).Perm
        ((discovered env backupsPath names).map (fun b => b.BackupMetadata.BackupName)) := by
      rw [hcat]
      exact (sliceStable_perm createdBefore _).map _
    have hcn : (catalog.map (fun b => b.BackupMetadata.BackupName)).Nodup :=
      hperm.nodup_iff.mpr hdn
    have hpw : catalog.Pairwise
        (fun a b => a.BackupMetadata.BackupName ≠ b.BackupMetadata.BackupName) := by
      unfold List.Nodup at hcn
      rw [List.pairwise_map] at hcn
      exact hcn
    rw [List.pairwise_iff_get] at hpw
    exact (hpw ⟨catalog.length - 2, by omega⟩ ⟨catalog.length - 1, by omega⟩ (by
      simp only [Fin.lt_def]
      omega)).symm

/-- In the demo data root the directory listing holds no name twice and every loaded
record carries the name of its directory. -/
theorem demoLocalEnv_names (backupsPath : String) (names : List String)
    (hopen : demoLocalEnv.Open backupsPath = .opened names) :
    names.Nodup ∧ ∀ name ∈ names, ∀ b, loadBackup demoLocalEnv backupsPath name = .ok b →
      b.BackupMetadata.BackupName = name := by
  have hboth : backupsPath = "/var/lib/clickhouse/backup" ∧
      names = ["b2", "b1", "notes.txt", "b3"] := by
    simp only [demoLocalEnv] at hopen
    split at hopen
    · rename_i hp
      injection hopen with hn
      exact ⟨hp, hn.symm⟩
    · cases hopen
  obtain ⟨rfl, rfl⟩ := hboth
  refine ⟨by decide, ?_⟩
  intro name hmem b hb
  simp only [List.mem_cons, List.mem_singleton, List.not_mem_nil, or_false] at hmem
  rcases hmem with rfl | rfl | rfl | rfl
  · have h0 : loadBackup demoLocalEnv "/var/lib/clickhouse/backup" "b2" =
        .ok { BackupMetadata := demoMeta "b2" 20 200 2 0, Legacy := false } := rfl
    rw [h0] at hb; cases hb; rfl
  · have h0 : loadBackup demoLocalEnv "/var/lib/clickhouse/backup" "b1" =
        .ok { BackupMetadata := demoMeta "b1" 10 0 0 0, Legacy := true } := rfl
    rw [h0] at hb; cases hb; rfl
  · have h0 : loadBackup demoLocalEnv "/var/lib/clickhouse/backup" "notes.txt" =
        .ok { BackupMetadata := demoMeta "notes.txt" 5 0 0 0, Legacy := true } := rfl
    rw [h0] at hb; cases hb; rfl
  · have h0 : loadBackup demoLocalEnv "/var/lib/clickhouse/backup" "b3" =
        .ok { BackupMetadata := demoMeta "b3" 20 300 3 0, Legacy := false } := rfl
    rw [h0] at hb; cases hb; rfl

/-- Witness of C3 (as amended): the catalog scanned from the demo data root has three
entries; "latest" prints `b3`, "penult" prints `b2`, and the two names differ. -/
theorem latest_penult_of_scanned_catalog_witness :
    (printBackupsLocal demoPrintEnv demoScannedCatalog "latest").stdout = ["b3"] ∧
    (printBackupsLocal demoPrintEnv demoScannedCatalog "penult").stdout = ["b2"] ∧
    (demoScannedCatalog.get ⟨2, by decide⟩).BackupMetadata.BackupName ≠
      (demoScannedCatalog.get ⟨1, by decide⟩).BackupMetadata.BackupName :=
  ⟨(latest_penult_of_scanned_catalog demoLocalEnv demoPrintEnv none demoScannedCatalog
      (by decide) (by decide) (by decide)).1,
   (latest_penult_of_scanned_catalog demoLocalEnv demoPrintEnv none demoScannedCatalog
      (by decide) (by decide) (by decide)).2.2.1,
   (latest_penult_of_scanned_catalog demoLocalEnv demoPrintEnv none demoScannedCatalog
      (by decide) (by decide) (by decide)).2.2.2.2 demoLocalEnv_names⟩

/-- C3 (as stated) fails: in the data root where the directory `b3` is a copy of `b2`
whose metadata keeps the backup name `nightly`, the scan succeeds with three entries,
and "latest" and "penult" print the same name. -/
theorem latest_penult_same_name_counterexample :
    (GetLocalBackups demoLocalEnvCopied none).err = none ∧
    (GetLocalBackups demoLocalEnvCopied none).backups.map List.length = some 3 ∧
    (GetLocalBackups demoLocalEnvCopied none).backups.map
      (fun catalog => (printBackupsLocal demoPrintEnv catalog "latest").stdout) =
      some ["nightly"] ∧
    (GetLocalBackups demoLocalEnvCopied none).backups.map
      (fun catalog => (printBackupsLocal demoPrintEnv catalog "penult").stdout) =
      some ["nightly"] := by
  decide

/-! ## Properties of the remote listing -/

/-- C8: when remote storage is "none", `GetRemoteBackups` fails without issuing a
listing. When the destination is configured and connects: with `parseMetadata =
false` and a non-empty first listing `BackupList(false, "")`, exactly one further
listing is issued, `BackupList(true, name of the last entry of the first listing)`,
and its result is returned; with `parseMetadata = true`, or when the first listing
is not a non-empty list, exactly one listing is issued and its result is returned. -/
theorem getRemoteBackups_listings {σ : Type} (env : RemoteEnv σ) (s : σ)
    (parseMetadata : Bool) :
    (env.RemoteStorage = "none" →
      (GetRemoteBackups env s parseMetadata).err = some "remote_storage is 'none'" ∧
      (GetRemoteBackups env s parseMetadata).listings = []) ∧
    (∀ s1, env.RemoteStorage ≠ "none" → env.NewBackupDestination = none →
      env.Connect s = (s1, none) →
      (∀ s2 first (hne : 0 < first.length), parseMetadata = false →
        env.BackupList false "" s1 = (s2, .ok first) →
        (GetRemoteBackups env s parseMetadata).listings =
          [(false, ""),
           (true, (first.get ⟨first.length - 1, by omega⟩).BackupMetadata.BackupName)] ∧
        ((GetRemoteBackups env s parseMetadata).backups,
          (GetRemoteBackups env s parseMetadata).err) =
          listingResult (env.BackupList true
            (first.get ⟨first.length - 1, by omega⟩).BackupMetadata.BackupName s2).2 ∧
        (GetRemoteBackups env s parseMetadata).state =
          (env.BackupList true
            (first.get ⟨first.length - 1, by omega⟩).BackupMetadata.BackupName s2).1) ∧
      ((parseMetadata = true ∨
          ∀ l, (env.BackupList parseMetadata "" s1).2 = .ok l → l = []) →
        (GetRemoteBackups env s parseMetadata).listings = [(parseMetadata, "")] ∧
        ((GetRemoteBackups env s parseMetadata).backups,
          (GetRemoteBackups env s parseMetadata).err) =
          listingResult (env.BackupList parseMetadata "" s1).2 ∧
        (GetRemoteBackups env s parseMetadata).state =
          (env.BackupList parseMetadata "" s1).1)) := by
  refine ⟨?_, ?_⟩
  · intro hnone
    unfold GetRemoteBackups
    rw [if_pos hnone]
    exact ⟨rfl, rfl⟩
  · intro s1 hcfg hdest hconn
    refine ⟨?_, ?_⟩
    · intro s2 first hne hparse hfirst
      subst hparse
      unfold GetRemoteBackups
      rw [if_neg hcfg]
      simp only [hdest, hconn, hfirst]
      have hcond : (True ∧ first.length > 0) := ⟨trivial, hne⟩
      rw [dif_pos hcond]
      cases hsecond : env.BackupList true
          (first.get ⟨first.length - 1, by omega⟩).BackupMetadata.BackupName s2 with
      | mk s3 r =>
        cases r with
        | error e => exact ⟨rfl, rfl, rfl⟩
        | ok l => exact ⟨rfl, rfl, rfl⟩
    · intro hcase
      unfold GetRemoteBackups
      rw [if_neg hcfg]
      simp only [hdest, hconn]
      cases hfirst : env.BackupList parseMetadata "" s1 with
      | mk s2 r =>
        cases r with
        | error e => exact ⟨rfl, rfl, rfl⟩
        | ok l =>
          have hcond : ¬ (parseMetadata = false ∧ l.length > 0) := by
            rintro ⟨hp, hl⟩
            rcases hcase with hc | hc
            · rw [hp] at hc; cases hc
            · have := hc l (by rw [hfirst])
              rw [this] at hl
              simp at hl
          simp only
          rw [dif_neg hcond]
          exact ⟨rfl, rfl, rfl⟩

/-- Witness of C8: against the demo destination, a listing without metadata issues
the cheap listing and then the listing with metadata anchored at `tuesday`, and
returns the records with metadata; a listing with metadata issues one listing. -/
theorem getRemoteBackups_listings_witness :
    ((GetRemoteBackups demoRemoteEnv 0 false).listings = [(false, ""), (true, "tuesday")] ∧
      ((GetRemoteBackups demoRemoteEnv 0 false).backups,
        (GetRemoteBackups demoRemoteEnv 0 false).err) = (demoRemotes, none) ∧
      (GetRemoteBackups demoRemoteEnv 0 false).state = 2) ∧
    ((GetRemoteBackups demoRemoteEnv 0 true).listings = [(true, "")] ∧
      ((GetRemoteBackups demoRemoteEnv 0 true).backups,
        (GetRemoteBackups demoRemoteEnv 0 true).err) = (demoRemotes, none) ∧
      (GetRemoteBackups demoRemoteEnv 0 true).state = 1) :=
  ⟨((getRemoteBackups_listings demoRemoteEnv 0 false).2 0 (by decide) rfl rfl).1 1
      demoRemoteNames (by decide) rfl rfl,
   ((getRemoteBackups_listings demoRemoteEnv 0 true).2 0 (by decide) rfl rfl).2
      (Or.inl rfl)⟩

end ClickhouseBackup
